import Mathlib

/-!
Verification of the `create-sparkvite` CLI (`sparkvite.js`) against its
natural-language specification.

The development shallowly embeds the script's decision pipeline:

* the answer schema (`Answers`) collected by the prompts;
* the package-manager command construction (`createCmd`, `getInstallCmd`);
* the sequence of external commands, file writes, directory creations and
  JSON patches the script performs, as a step list (`steps`);
* the orchestrator (`run`): node-version gate, overwrite prompt, sequential
  execution with stop-on-first-failing-command, rollback and exit codes;
* the JSON layer used by the config patches: a JS-faithful comment stripper
  (`stripJsonComments`), a fueled JSON parser (`parseVal`), the 2-space
  pretty printer mirroring `JSON.stringify(v, null, 2)` (`stringifyPretty`),
  and the `package.json` / `tsconfig.app.json` patch functions.

Machine text such as generated JS/JSON source is embedded verbatim as string
literals (with `\x7b`/`\x7d` for braces and `\x27` for the single quote).
Paths are relative to the generated project directory; the working directory
is threaded explicitly where the script uses absolute paths.
-/

namespace Sparkvite

/-! ### Answer schema -/

/-- The four supported package managers, in prompt order. -/
inductive PackageManager where
  | npm | yarn | pnpm | bun
deriving DecidableEq

/-- Language choice (`"JavaScript"` or `"TypeScript"`). -/
inductive Language where
  | javascript | typescript
deriving DecidableEq

/-- UI library choice (`"None"` or `"ShadCN UI"`). -/
inductive UiLibrary where
  | none | shadcn
deriving DecidableEq

/-- State-management choice (`"None"`, `"Context API"`, `"Zustand"`, `"Redux"`). -/
inductive StateManagement where
  | none | contextAPI | zustand | redux
deriving DecidableEq

/-- The fully resolved configuration produced by the prompts. -/
structure Answers where
  projectName : String
  packageManager : PackageManager
  language : Language
  uiLibrary : UiLibrary
  stateManagement : StateManagement
  testing : Bool
  linting : Bool
  git : Bool
  router : Bool
  pwa : Bool
deriving DecidableEq

/-- The shell name of a package manager. -/
def pmName : PackageManager → String
  | .npm => "npm" | .yarn => "yarn" | .pnpm => "pnpm" | .bun => "bun"

/-- `isTS`: whether the TypeScript variant was chosen (`answers.language === "TypeScript"`). -/
def isTS (a : Answers) : Bool := a.language = Language.typescript

/-- Source-file extension for components (`tsx` / `jsx`). -/
def ext (a : Answers) : String := if isTS a then "tsx" else "jsx"

/-- Source-file extension for plain modules (`ts` / `js`). -/
def storeExt (a : Answers) : String := if isTS a then "ts" else "js"

/-- The Vite template name (`react-ts` or `react`). -/
def template (a : Answers) : String := if isTS a then "react-ts" else "react"

/-- The scaffold command (`createCmd` in the script): npm needs the `--`
separator, the other managers use `pm create vite`. -/
def createCmd (a : Answers) : String :=
  if a.packageManager = PackageManager.npm then
    "npm create vite@latest " ++ a.projectName ++ " -- --template " ++ template a
  else
    pmName a.packageManager ++ " create vite " ++ a.projectName ++ " --template " ++ template a

/-- `getInstallCmd(pkgs, isDev)`: install-command construction per package
manager. npm uses the verb `install`, the rest use `add`; the dev flag is
`-D` for npm/yarn/pnpm and `-d` for bun. -/
def getInstallCmd (pm : PackageManager) (pkgs : String) (isDev : Bool) : String :=
  let cmd := pmName pm ++ " "
  let cmd :=
    match pm with
    | .npm => cmd ++ "install " ++ (if isDev then "-D " else "")
    | .yarn => cmd ++ "add " ++ (if isDev then "-D " else "")
    | .pnpm => cmd ++ "add " ++ (if isDev then "-D " else "")
    | .bun => cmd ++ "add " ++ (if isDev then "-d " else "")
  cmd ++ pkgs

/-- `runScriptCmd`: the script-invocation form shown to the user
(`npm run` for npm, the bare manager name otherwise). -/
def runScriptCmd (pm : PackageManager) : String :=
  if pm = PackageManager.npm then "npm run" else pmName pm

/-- `cd ${projectName} && cmd` — the relative-path command wrapper used for
the install steps. -/
def cdName (projectName cmd : String) : String :=
  "cd " ++ projectName ++ " && " ++ cmd

/-- `path.join(process.cwd(), projectName)`. -/
def projectPathOf (cwd projectName : String) : String := cwd ++ "/" ++ projectName

/-- `cd ${projectPath} && cmd` — the absolute-path command wrapper used for
the git and ShadCN steps. -/
def cdPath (cwd projectName cmd : String) : String :=
  "cd " ++ projectPathOf cwd projectName ++ " && " ++ cmd

/-- The ESLint/Prettier dev-dependency list (`lintDeps` in the script); the
two type-aware packages are pushed when TypeScript is selected. -/
def lintDeps (a : Answers) : List String :=
  ["eslint", "prettier", "eslint-config-prettier", "eslint-plugin-react",
   "eslint-plugin-react-hooks"] ++
  (if isTS a then ["@typescript-eslint/eslint-plugin", "@typescript-eslint/parser"] else [])

/-! ### The generated application entry tree

`appWrapper` starts as `<App />`, is wrapped by `<BrowserRouter>` when routing
is enabled, then by `<AppProvider>` for Context API, then by
`<Provider store={store}>` for Redux (Zustand adds no wrapper). -/

/-- The component tree placed inside `<React.StrictMode>` in `src/main.*`,
built by the same sequence of conditional re-wrappings as the script. -/
def appWrapperStr (useRouter : Bool) (sm : StateManagement) : String :=
  let w := "<App />"
  let w := if useRouter then "<BrowserRouter>\n      " ++ w ++ "\n    </BrowserRouter>" else w
  let w := if sm = StateManagement.contextAPI then
    "<AppProvider>\n    " ++ w ++ "\n  </AppProvider>" else w
  let w := if sm = StateManagement.redux then
    "<Provider store=\x7bstore\x7d>\n    " ++ w ++ "\n  </Provider>" else w
  w

/-- The router-wrapped app, for stating the nesting law. -/
def routerWrapStr : String := "<BrowserRouter>\n      <App />\n    </BrowserRouter>"

/-- Opening tag of the state-management wrapper the script adds (empty for
the options that add none). -/
def stateOpenStr : StateManagement → String
  | .contextAPI => "<AppProvider>"
  | .redux => "<Provider store=\x7bstore\x7d>"
  | _ => ""

/-- Closing tag of the state-management wrapper the script adds. -/
def stateCloseStr : StateManagement → String
  | .contextAPI => "</AppProvider>"
  | .redux => "</Provider>"
  | _ => ""

/-! ### Generated file contents -/

/-- `src/index.css` content. -/
def cssContent : String :=
  "@import \"tailwindcss\";\n\n/* Add custom theme using @theme */\n"

/-- `vite.config.ts` / `vite.config.js` content (PWA import and plugin are
conditional; the alias always maps `@` to `./src`). -/
def viteConfigContent (a : Answers) : String :=
  "import \x7b defineConfig \x7d from \x27vite\x27;\nimport react from \x27@vitejs/plugin-react\x27;\nimport tailwindcss from \x27@tailwindcss/vite\x27;\nimport path from \x27path\x27;\n\n"
  ++ (if a.pwa then "import \x7b VitePWA \x7d from \x27vite-plugin-pwa\x27;\n" else "")
  ++ "export default defineConfig(\x7b\n  plugins: [react(), tailwindcss()"
  ++ (if a.pwa then ", VitePWA(\x7b /* Add manifest options */ \x7d)" else "")
  ++ "],\n  resolve: \x7b\n    alias: \x7b \"@\": path.resolve(__dirname, \"./src\") \x7d\n  \x7d\n\x7d);"

/-- `.eslintrc.js` content, per language. -/
def eslintConfigContent (a : Answers) : String :=
  if isTS a then
    "module.exports = \x7b\n  extends: [\x27eslint:recommended\x27, \x27plugin:@typescript-eslint/recommended\x27, \x27prettier\x27],\n  parser: \x27@typescript-eslint/parser\x27,\n  plugins: [\x27@typescript-eslint\x27],\n  rules: \x7b /* Add custom rules */ \x7d,\n  settings: \x7b react: \x7b version: \x27detect\x27 \x7d \x7d\n\x7d;"
  else
    "module.exports = \x7b\n  extends: [\x27eslint:recommended\x27, \x27plugin:react/recommended\x27, \x27prettier\x27],\n  plugins: [\x27react\x27, \x27react-hooks\x27],\n  rules: \x7b /* Add custom rules */ \x7d\n\x7d;"

/-- The sample Vitest test file `src/App.test.*`. -/
def appTestContent : String :=
  "import \x7b render, screen \x7d from \x27@testing-library/react\x27;\nimport App from \x27./App\x27;\n\ntest(\x27renders learn react link\x27, () => \x7b\n  render(<App />);\n  const linkElement = screen.getByText(/learn react/i);\n  expect(linkElement).toBeInTheDocument();\n\x7d);"

/-- `.gitignore` content (only written when git setup is enabled). -/
def gitignoreContent : String :=
  "node_modules\n.env\n/dist\n/build\n*.log\n.DS_Store\n"

/-- `src/pages/Home.*` content, templated with the project name. -/
def homeContent (a : Answers) : String :=
  "export default function Home() \x7b\n  return <h1 className=\"text-3xl font-bold\">\n  Welcome to "
  ++ a.projectName ++ "\n  </h1>;\n\x7d"

/-- `src/layouts/MainLayout.*` content (router only). -/
def mainLayoutContent : String :=
  "import \x7b Outlet, Link \x7d from \"react-router-dom\";\n\nexport default function MainLayout() \x7b\n  return (\n    <div className=\"p-6\">\n      <nav className=\"flex gap-4 mb-6\">\n        <Link to=\"/\" className=\"text-blue-600\">Home</Link>\n        <Link to=\"/about\" className=\"text-blue-600\">About</Link>\n      </nav>\n      <Outlet />\n    </div>\n  );\n\x7d"

/-- `src/pages/About.*` content (router only). -/
def aboutContent : String :=
  "export default function About() \x7b\n  return <p className=\"text-lg\">\n  This is the About page \n  </p>;\n\x7d"

/-- `src/App.*` rewritten with the two routes (router only). -/
def appRoutesContent : String :=
  "import \x7b Routes, Route \x7d from \"react-router-dom\";\nimport MainLayout from \"@/layouts/MainLayout\";\nimport Home from \"@/pages/Home\";\nimport About from \"@/pages/About\";\n\nfunction App() \x7b\n  return (\n    <Routes>\n      <Route element=\x7b<MainLayout />\x7d>\n        <Route path=\"/\" element=\x7b<Home />\x7d />\n        <Route path=\"/about\" element=\x7b<About />\x7d />\n      </Route>\n    </Routes>\n  );\n\x7d\n\nexport default App;"

/-- `src/context/AppContext.*` content (Context API only). -/
def appContextContent (a : Answers) : String :=
  "import \x7b createContext, useContext, useState \x7d from \x27react\x27;\n\nconst AppContext = createContext"
  ++ (if isTS a then "<any>" else "") ++ "(" ++ (if isTS a then "\x7b\x7d" else "")
  ++ ");\n\nexport function AppProvider(\x7b children \x7d"
  ++ (if isTS a then ": \x7b children: React.ReactNode \x7d" else "")
  ++ ") \x7b\n  const [theme, setTheme] = useState(\x27light\x27);\n  return (\n    <AppContext.Provider value=\x7b\x7b theme, setTheme \x7d\x7d>\n      \x7bchildren\x7d\n    </AppContext.Provider>\n  );\n\x7d\n\nexport const useAppContext = () => useContext(AppContext);"

/-- `src/stores/useCounterStore.*` content (Zustand only). -/
def zustandStoreContent (a : Answers) : String :=
  if isTS a then
    "import \x7b create \x7d from \x27zustand\x27;\n\ntype CounterStore = \x7b\n  count: number;\n  increment: () => void;\n\x7d;\n\nexport const useCounterStore = create<CounterStore>((set) => (\x7b\n  count: 0,\n  increment: () => set((state) => (\x7b count: state.count + 1 \x7d)),\n\x7d));"
  else
    "import \x7b create \x7d from \x27zustand\x27;\n\nexport const useCounterStore = create((set) => (\x7b\n  count: 0,\n  increment: () => set((state) => (\x7b count: state.count + 1 \x7d)),\n\x7d));"

/-- `src/stores/counterSlice.*` content (Redux only). -/
def counterSliceContent (a : Answers) : String :=
  if isTS a then
    "import \x7b createSlice, PayloadAction \x7d from \x27@reduxjs/toolkit\x27;\n\ntype CounterState = \x7b\n  value: number;\n\x7d;\n\nconst initialState: CounterState = \x7b\n  value: 0,\n\x7d;\n\nexport const counterSlice = createSlice(\x7b\n  name: \x27counter\x27,\n  initialState,\n  reducers: \x7b\n    increment: (state) => \x7b\n      state.value += 1;\n    \x7d,\n    decrement: (state) => \x7b\n      state.value -= 1;\n    \x7d,\n    incrementByAmount: (state, action: PayloadAction<number>) => \x7b\n      state.value += action.payload;\n    \x7d,\n  \x7d,\n\x7d);\n\nexport const \x7b increment, decrement, incrementByAmount \x7d = counterSlice.actions;\n\nexport default counterSlice.reducer;"
  else
    "import \x7b createSlice \x7d from \x27@reduxjs/toolkit\x27;\n\nconst initialState = \x7b\n  value: 0,\n\x7d;\n\nexport const counterSlice = createSlice(\x7b\n  name: \x27counter\x27,\n  initialState,\n  reducers: \x7b\n    increment: (state) => \x7b\n      state.value += 1;\n    \x7d,\n    decrement: (state) => \x7b\n      state.value -= 1;\n    \x7d,\n    incrementByAmount: (state, action) => \x7b\n      state.value += action.payload;\n    \x7d,\n  \x7d,\n\x7d);\n\nexport const \x7b increment, decrement, incrementByAmount \x7d = counterSlice.actions;\n\nexport default counterSlice.reducer;"

/-- `src/stores/store.*` content (Redux only). -/
def reduxStoreContent (a : Answers) : String :=
  "import \x7b configureStore \x7d from \x27@reduxjs/toolkit\x27;\nimport counterReducer from \x27./counterSlice\x27;\n\nexport const store = configureStore(\x7b\n  reducer: \x7b\n    counter: counterReducer,\n  \x7d,\n\x7d);\n"
  ++ (if isTS a then "\nexport type RootState = ReturnType<typeof store.getState>;\nexport type AppDispatch = typeof store.dispatch;\n" else "")

/-- The import block of `src/main.*` (`mainContent` before the render call). -/
def mainImports (a : Answers) : String :=
  (if a.router then
    "import React from \"react\";\nimport ReactDOM from \"react-dom/client\";\nimport \x7b BrowserRouter \x7d from \"react-router-dom\";\nimport App from \"./App\";\nimport \"./index.css\";\n"
  else
    "import React from \"react\";\nimport ReactDOM from \"react-dom/client\";\nimport App from \"./App\";\nimport \"./index.css\";\n")
  ++ (if a.stateManagement = StateManagement.contextAPI then
    "import \x7b AppProvider \x7d from \"@/context/AppContext\";\n" else "")
  ++ (if a.stateManagement = StateManagement.redux then
    "import \x7b Provider \x7d from \x27react-redux\x27;\nimport \x7b store \x7d from \x27@/stores/store\x27;\n" else "")

/-- Full `src/main.*` content: imports, then the render call around the
wrapper tree. -/
def mainContentStr (a : Answers) : String :=
  mainImports a
  ++ "\nReactDOM.createRoot(document.getElementById(\"root\")"
  ++ (if isTS a then "!" else "")
  ++ ").render(\n  <React.StrictMode>\n    "
  ++ appWrapperStr a.router a.stateManagement
  ++ "\n  </React.StrictMode>\n);"

/-- `.env.example` content. -/
def envContent : String := "VITE_API_URL=http://localhost:3000\n"

/-- `README.md` content: templated with the project name, the package-manager
name, the script-invocation form, and the linting/testing flags. -/
def readmeContent (a : Answers) : String :=
  let rsc := runScriptCmd a.packageManager
  "# " ++ a.projectName ++ "\n\n## Setup\n- cd " ++ a.projectName ++ "\n- "
  ++ pmName a.packageManager ++ " install (already done)\n- " ++ rsc
  ++ " dev\n\n## Scripts\n- " ++ rsc ++ " dev\n"
  ++ (if a.linting then "- " ++ rsc ++ " lint\n- " ++ rsc ++ " format" else "")
  ++ "\n" ++ (if a.testing then "- " ++ rsc ++ " test" else "")
  ++ "\n\n## Structure\n- src/components\n- src/pages\n- etc.\n"

/-- `commonFolders`: the subdirectories created under `src/` — the list is a
fixed literal in the script and includes `stores` unconditionally. -/
def commonFolders : List String :=
  ["components", "pages", "utils", "hooks", "context", "layouts", "stores"]

/-! ### JSON values and the JS object operations the patches use -/

/-- JSON values (numbers restricted to integers, which covers every number the
script reads or writes). Object members keep insertion order, as JS does. -/
inductive Json where
  | null : Json
  | bool : Bool → Json
  | num : Int → Json
  | str : String → Json
  | arr : List Json → Json
  | obj : List (String × Json) → Json

/-- JS truthiness of a parsed JSON value (`x || {}` keeps `x` iff truthy). -/
def Json.truthy : Json → Bool
  | .null => false
  | .bool b => b
  | .num n => n ≠ 0
  | .str s => s ≠ ""
  | .arr _ => true
  | .obj _ => true

/-- Field lookup on a member list (first match, like JS property access). -/
def lookupField : List (String × Json) → String → Option Json
  | [], _ => Option.none
  | (k', v) :: rest, k => if k' = k then some v else lookupField rest k

/-- JS property assignment on a member list: an existing key keeps its
position and is overwritten; a new key is appended. -/
def setField : List (String × Json) → String → Json → List (String × Json)
  | [], k, v => [(k, v)]
  | (k', v') :: rest, k, v =>
    if k' = k then (k, v) :: rest else (k', v') :: setField rest k v

/-- JS property assignment on a value: a no-op on non-objects (assignment on
a primitive silently does nothing in sloppy mode). -/
def Json.setKey : Json → String → Json → Json
  | .obj fs, k, v => .obj (setField fs k v)
  | j, _, _ => j

/-- `x.f || {}`: the field if present and truthy, else an empty object. -/
def orEmptyObj (o : Option Json) : Json :=
  match o with
  | some v => if v.truthy then v else .obj []
  | Option.none => .obj []

/-- The keys of a value's top-level object (empty for non-objects). -/
def Json.fields : Json → List (String × Json)
  | .obj fs => fs
  | _ => []

/-- The `package.json` mutation of the linting branch: read, ensure
`scripts`, set `lint`, `lint:fix` and `format`, write back. -/
def patchLintScripts (j : Json) : Json :=
  match j with
  | .obj fs =>
    let scripts := orEmptyObj (lookupField fs "scripts")
    let scripts := scripts.setKey "lint"
      (.str "eslint . --ext js,jsx,ts,tsx --report-unused-disable-directives --max-warnings 0")
    let scripts := scripts.setKey "lint:fix" (.str "npm run lint -- --fix")
    let scripts := scripts.setKey "format" (.str "prettier --write .")
    .obj (setField fs "scripts" scripts)
  | j => j

/-- The `package.json` mutation of the testing branch: read, ensure
`scripts`, set `test`, write back. -/
def patchTestScripts (j : Json) : Json :=
  match j with
  | .obj fs =>
    let scripts := orEmptyObj (lookupField fs "scripts")
    let scripts := scripts.setKey "test" (.str "vitest")
    .obj (setField fs "scripts" scripts)
  | j => j

/-- The owned `paths` value `{"@/*": ["./src/*"]}` written into
`tsconfig.app.json`. -/
def tsAppPathsValue : Json := .obj [("@/*", .arr [.str "./src/*"])]

/-- The `tsconfig.app.json` patch: ensure `compilerOptions`, set `baseUrl`
to `"."` and `paths` to `{"@/*": ["./src/*"]}`. -/
def patchTsconfigApp (j : Json) : Json :=
  match j with
  | .obj fs =>
    let co := orEmptyObj (lookupField fs "compilerOptions")
    let co := co.setKey "baseUrl" (.str ".")
    let co := co.setKey "paths" tsAppPathsValue
    .obj (setField fs "compilerOptions" co)
  | j => j

/-- The `tsconfig.json` patch: ensure `compilerOptions`, set `baseUrl`
to `"./src"` and `paths` to `{"@/*": ["./*"]}`. (The script reads this file
without comment stripping.) -/
def patchTsconfigRoot (j : Json) : Json :=
  match j with
  | .obj fs =>
    let co := orEmptyObj (lookupField fs "compilerOptions")
    let co := co.setKey "baseUrl" (.str "./src")
    let co := co.setKey "paths" (.obj [("@/*", .arr [.str "./*"])])
    .obj (setField fs "compilerOptions" co)
  | j => j

/-! ### Comment stripping (`stripJsonComments`)

The script removes block comments with the global lazy regex
`/\*[\s\S]*?\*\//g` and then line comments with `/\/\/.*$/gm`, purely
textually — string literals are not recognised, which is what claim C8
exercises. -/

/-- Remainder of the input just after the first `*/`, if any (the lazy
block-comment close). -/
def afterBlockClose : List Char → Option (List Char)
  | '*' :: '/' :: rest => some rest
  | _ :: rest => afterBlockClose rest
  | [] => Option.none

/-- Remove every closed `/* ... */` block, leftmost-lazy and globally, as the
first regex replace does; an unclosed `/*` matches nothing and is kept (and
then nothing later can match either, since no `*/` remains). Fueled so that
it is structural; each step consumes at least one character, so
`cs.length + 1` fuel always suffices. -/
def removeBlockCommentsAux : Nat → List Char → List Char
  | 0, cs => cs
  | fuel + 1, cs =>
    match cs with
    | '/' :: '*' :: rest =>
      (match afterBlockClose rest with
       | some rem => removeBlockCommentsAux fuel rem
       | Option.none => '/' :: '*' :: rest)
    | c :: rest => c :: removeBlockCommentsAux fuel rest
    | [] => []

/-- Remove from each `//` to the end of its line (`$` in multiline mode keeps
the newline), as the second regex replace does. -/
def removeLineCommentsAux : Nat → List Char → List Char
  | 0, cs => cs
  | fuel + 1, cs =>
    match cs with
    | '/' :: '/' :: rest => removeLineCommentsAux fuel (rest.dropWhile (fun c => c ≠ '\n'))
    | c :: rest => c :: removeLineCommentsAux fuel rest
    | [] => []

/-- `stripJsonComments`: block comments first (whole text), then line
comments. -/
def stripJsonComments (s : String) : String :=
  let blocked := removeBlockCommentsAux (s.data.length + 1) s.data
  String.mk (removeLineCommentsAux (blocked.length + 1) blocked)

/-! ### A JSON parser modelling `JSON.parse` on the fragment the tool meets

Fuel-structural so every use kernel-evaluates. The fragment: objects,
arrays, strings with the common escapes, integers, `true`/`false`/`null`.
Anything outside (floats, exponents, `\u` escapes, raw control characters
in strings) parses to `Option.none`, i.e. falls outside the modelled class. -/

/-- The object braces, named to keep brace characters out of the source. -/
def braceOpen : Char := Char.ofNat 123

/-- Closing object brace. -/
def braceClose : Char := Char.ofNat 125

/-- JSON insignificant whitespace. -/
def isBlank (c : Char) : Bool := c = ' ' || c = '\n' || c = '\t' || c = '\r'

/-- An ASCII decimal digit. -/
def isDig (c : Char) : Bool := '0' ≤ c && c ≤ '9'

/-- Drop leading insignificant whitespace. -/
def skipBlanks : List Char → List Char
  | c :: more => if isBlank c then skipBlanks more else c :: more
  | [] => []

/-- Split a leading run of digits from the rest. -/
def digitSpan : List Char → List Char × List Char
  | c :: more =>
    if isDig c then
      let p := digitSpan more
      (c :: p.1, p.2)
    else ([], c :: more)
  | [] => ([], [])

/-- Numeric value of a digit run, most significant first. -/
def digitsVal (ds : List Char) : Nat :=
  ds.foldl (fun acc c => 10 * acc + (c.toNat - 48)) 0

/-- Resolve a backslash escape (the `\u` form is outside the fragment). -/
def unescapeChar (e : Char) : Option Char :=
  if e = '"' then some '"'
  else if e = '\\' then some '\\'
  else if e = '/' then some '/'
  else if e = 'n' then some '\n'
  else if e = 't' then some '\t'
  else if e = 'r' then some '\r'
  else if e = 'b' then some (Char.ofNat 8)
  else if e = 'f' then some (Char.ofNat 12)
  else Option.none

/-- Parse a string body after the opening quote; raw control characters are
rejected as `JSON.parse` rejects them. -/
def strBody : List Char → Option (List Char × List Char)
  | [] => Option.none
  | '"' :: more => some ([], more)
  | '\\' :: more =>
    (match more with
     | [] => Option.none
     | e :: more2 =>
       match unescapeChar e with
       | some c =>
         (match strBody more2 with
          | some p => some (c :: p.1, p.2)
          | Option.none => Option.none)
       | Option.none => Option.none)
  | c :: more =>
    if c.toNat < 32 then Option.none
    else
      match strBody more with
      | some p => some (c :: p.1, p.2)
      | Option.none => Option.none

/-- Parse an unsigned integer; a following `.`, `e` or `E` (a float) is
outside the fragment. -/
def parseNatNum (cs : List Char) : Option (Nat × List Char) :=
  let p := digitSpan cs
  if p.1 = [] then Option.none
  else
    match p.2 with
    | c :: _ =>
      if isDig c || c = '.' || c = 'e' || c = 'E' then Option.none
      else some (digitsVal p.1, p.2)
    | [] => some (digitsVal p.1, p.2)

mutual

/-- Parse one JSON value (fuel-structural). -/
def parseVal : Nat → List Char → Option (Json × List Char)
  | 0, _ => Option.none
  | fuel + 1, cs =>
    match skipBlanks cs with
    | [] => Option.none
    | c :: more =>
      if c = braceOpen then
        match skipBlanks more with
        | [] => Option.none
        | c2 :: more2 =>
          if c2 = braceClose then some (.obj [], more2)
          else
            match parseFields fuel (c2 :: more2) with
            | some p => some (.obj p.1, p.2)
            | Option.none => Option.none
      else if c = '[' then
        match skipBlanks more with
        | [] => Option.none
        | c2 :: more2 =>
          if c2 = ']' then some (.arr [], more2)
          else
            match parseElems fuel (c2 :: more2) with
            | some p => some (.arr p.1, p.2)
            | Option.none => Option.none
      else if c = '"' then
        match strBody more with
        | some p => some (.str (String.mk p.1), p.2)
        | Option.none => Option.none
      else if c = 't' then
        match more with
        | 'r' :: 'u' :: 'e' :: rem => some (.bool true, rem)
        | _ => Option.none
      else if c = 'f' then
        match more with
        | 'a' :: 'l' :: 's' :: 'e' :: rem => some (.bool false, rem)
        | _ => Option.none
      else if c = 'n' then
        match more with
        | 'u' :: 'l' :: 'l' :: rem => some (.null, rem)
        | _ => Option.none
      else if c = '-' then
        match parseNatNum more with
        | some p => some (.num (-(p.1 : Int)), p.2)
        | Option.none => Option.none
      else if isDig c then
        match parseNatNum (c :: more) with
        | some p => some (.num (p.1 : Int), p.2)
        | Option.none => Option.none
      else Option.none

/-- Parse one-or-more comma-separated object members up to the closing
brace (the empty object is handled in `parseVal`). -/
def parseFields : Nat → List Char → Option (List (String × Json) × List Char)
  | 0, _ => Option.none
  | fuel + 1, cs =>
    match skipBlanks cs with
    | '"' :: more =>
      (match strBody more with
       | some kp =>
         (match skipBlanks kp.2 with
          | ':' :: afterColon =>
            (match parseVal fuel afterColon with
             | some vp =>
               (match skipBlanks vp.2 with
                | c :: afterSep =>
                  if c = ',' then
                    match parseFields fuel afterSep with
                    | some fsp => some ((String.mk kp.1, vp.1) :: fsp.1, fsp.2)
                    | Option.none => Option.none
                  else if c = braceClose then
                    some ([(String.mk kp.1, vp.1)], afterSep)
                  else Option.none
                | [] => Option.none)
             | Option.none => Option.none)
          | _ => Option.none)
       | Option.none => Option.none)
    | _ => Option.none

/-- Parse one-or-more comma-separated array elements up to `]`. -/
def parseElems : Nat → List Char → Option (List Json × List Char)
  | 0, _ => Option.none
  | fuel + 1, cs =>
    match parseVal fuel cs with
    | some vp =>
      (match skipBlanks vp.2 with
       | ',' :: afterSep =>
         (match parseElems fuel afterSep with
          | some esp => some (vp.1 :: esp.1, esp.2)
          | Option.none => Option.none)
       | ']' :: afterSep => some ([vp.1], afterSep)
       | _ => Option.none)
    | Option.none => Option.none

end

/-- `JSON.parse` on the modelled fragment: a full document with nothing but
whitespace after the value. -/
def parseJson (s : String) : Option Json :=
  match parseVal (s.data.length + 1) s.data with
  | some p => if skipBlanks p.2 = [] then some p.1 else Option.none
  | Option.none => Option.none

/-! ### `JSON.stringify(v, null, 2)` -/

/-- The digit character of `d < 10`. -/
def digitChar (d : Nat) : Char := Char.ofNat (48 + d)

/-- Decimal digit characters of `n`, most significant first; fuel-structural
(`n + 1` fuel always suffices since `n / 10` shrinks fast). -/
def natChars : Nat → Nat → List Char
  | 0, _ => []
  | fuel + 1, n =>
    if n < 10 then [digitChar n]
    else natChars fuel (n / 10) ++ [digitChar (n % 10)]

/-- The canonical decimal rendering of a natural number. -/
def decRepr (n : Nat) : String := String.mk (natChars (n + 1) n)

/-- The decimal rendering of an integer. -/
def intChars (i : Int) : List Char :=
  (if i < 0 then ['-'] else []) ++ natChars (i.natAbs + 1) i.natAbs

/-- JSON escape of one character (the fragment's strings have no control
characters beyond the named escapes). -/
def escChar (c : Char) : List Char :=
  if c = '"' then ['\\', '"']
  else if c = '\\' then ['\\', '\\']
  else if c = '\n' then ['\\', 'n']
  else if c = '\t' then ['\\', 't']
  else if c = '\r' then ['\\', 'r']
  else if c.toNat = 8 then ['\\', 'b']
  else if c.toNat = 12 then ['\\', 'f']
  else [c]

/-- A quoted, escaped JSON string literal. -/
def quoteStr (s : String) : List Char :=
  '"' :: ((s.data.map escChar).flatten ++ ['"'])

/-- Two spaces per indent level. -/
def indentChars : Nat → List Char
  | 0 => []
  | d + 1 => ' ' :: ' ' :: indentChars d

mutual

/-- Pretty-print a value at indent depth `d`, exactly as
`JSON.stringify(v, null, 2)` lays it out. -/
def renderJ : Json → Nat → List Char
  | .null, _ => ['n', 'u', 'l', 'l']
  | .bool true, _ => ['t', 'r', 'u', 'e']
  | .bool false, _ => ['f', 'a', 'l', 's', 'e']
  | .num i, _ => intChars i
  | .str s, _ => quoteStr s
  | .arr [], _ => ['[', ']']
  | .arr (x :: xs), d =>
    '[' :: '\n' :: (indentChars (d + 1) ++ renderJ x (d + 1)
      ++ renderElemsTail xs (d + 1) ++ '\n' :: (indentChars d ++ [']']))
  | .obj [], _ => [braceOpen, braceClose]
  | .obj (f :: fs), d =>
    braceOpen :: '\n' :: (indentChars (d + 1) ++ renderField f (d + 1)
      ++ renderFieldsTail fs (d + 1) ++ '\n' :: (indentChars d ++ [braceClose]))

/-- One `"key": value` member. -/
def renderField : String × Json → Nat → List Char
  | (k, v), d => quoteStr k ++ ':' :: ' ' :: renderJ v d

/-- The remaining elements, each `,\n indent value`. -/
def renderElemsTail : List Json → Nat → List Char
  | [], _ => []
  | x :: xs, d => ',' :: '\n' :: (indentChars d ++ renderJ x d ++ renderElemsTail xs d)

/-- The remaining members, each `,\n indent "key": value`. -/
def renderFieldsTail : List (String × Json) → Nat → List Char
  | [], _ => []
  | f :: fs, d => ',' :: '\n' :: (indentChars d ++ renderField f d ++ renderFieldsTail fs d)

end

/-- `JSON.stringify(v, null, 2)` as a string. -/
def stringifyPretty (v : Json) : String := String.mk (renderJ v 0)

/-- `jsconfig.json` as written for JavaScript projects
(`JSON.stringify({compilerOptions: {...}}, null, 2)`). -/
def jsconfigContent : String :=
  stringifyPretty (.obj [("compilerOptions",
    .obj [("baseUrl", .str "./src"), ("paths", .obj [("@/*", .arr [.str "./*"])])])])

/-- `.prettierrc` as written (`JSON.stringify({semi: true, singleQuote: true,
tabWidth: 2}, null, 2)`). -/
def prettierrcContent : String :=
  stringifyPretty (.obj [("semi", .bool true), ("singleQuote", .bool true),
    ("tabWidth", .num 2)])

/-! ### The Node version gate

`/^v(1[8-9]|2[0-9])\./.test(process.version)`: a `v`, two constrained digit
characters, then a literal dot. -/

/-- The anchored pattern test: both alternatives span exactly two characters,
so the match succeeds iff the first four characters fit. -/
def versionPatternOk : List Char → Bool
  | v :: c1 :: c2 :: dot :: _ =>
    v = 'v' && dot = '.' &&
      ((c1 = '1' && ('8' ≤ c2 && c2 ≤ '9')) || (c1 = '2' && ('0' ≤ c2 && c2 ≤ '9')))
  | _ => false

/-- The startup gate on `process.version`. -/
def checkNodeVersion (s : String) : Bool := versionPatternOk s.data

/-! ### The orchestrated step sequence

Everything the `try` block does, in program order: external commands,
file writes (paths relative to the project directory), directory creations,
and JSON read-merge-write patches. -/

/-- One observable action of the script. -/
inductive Step where
  | cmd (c : String)
  | write (path content : String)
  | mkdir (path : String)
  | patch (path : String)
deriving DecidableEq

/-- A `cd ${projectName} && <install>` command step. -/
def installStep (a : Answers) (pkgs : String) (isDev : Bool) : Step :=
  Step.cmd (cdName a.projectName (getInstallCmd a.packageManager pkgs isDev))

/-- The state-management install commands (Redux adds its type declarations
for TypeScript). -/
def stateInstallSteps (a : Answers) : List Step :=
  match a.stateManagement with
  | .zustand => [installStep a "zustand" false]
  | .redux =>
    [installStep a "@reduxjs/toolkit react-redux" false]
    ++ (if isTS a then [installStep a "@types/react-redux" true] else [])
  | _ => []

/-- The linting install command: the whole `lintDeps` list joined into one
batched install. -/
def lintInstallSteps (a : Answers) : List Step :=
  if a.linting then
    [installStep a (String.intercalate " " (lintDeps a)) true]
  else []

/-- The full action sequence of the `try` block, in program order. `cwd` is
`process.cwd()`; `tsAppExists` tells whether the scaffolded project has a
`tsconfig.app.json` (an `fs.existsSync` probe of the environment). -/
def steps (cwd : String) (a : Answers) (tsAppExists : Bool) : List Step :=
  [Step.cmd (createCmd a),
   Step.cmd (cdName a.projectName (pmName a.packageManager ++ " install")),
   installStep a "tailwindcss @tailwindcss/vite" false]
  ++ (if a.router then [installStep a "react-router-dom" false] else [])
  ++ (if a.uiLibrary = UiLibrary.shadcn then
        [installStep a "class-variance-authority clsx tailwind-merge" false] else [])
  ++ stateInstallSteps a
  ++ (if a.testing then
        [installStep a "vitest @testing-library/react @testing-library/jest-dom jsdom" true]
      else [])
  ++ lintInstallSteps a
  ++ (if a.pwa then [installStep a "vite-plugin-pwa" true] else [])
  ++ [Step.write "src/index.css" cssContent,
      Step.write (if isTS a then "vite.config.ts" else "vite.config.js") (viteConfigContent a)]
  ++ (if isTS a then
        [Step.patch "tsconfig.json",
         installStep a "@types/node" true]
        ++ (if tsAppExists then [Step.patch "tsconfig.app.json"] else [])
      else [Step.write "jsconfig.json" jsconfigContent])
  ++ (if a.linting then
        [Step.write ".eslintrc.js" (eslintConfigContent a),
         Step.write ".prettierrc" prettierrcContent,
         Step.patch "package.json"]
      else [])
  ++ (if a.testing then
        [Step.patch "package.json",
         Step.write ("src/App.test." ++ ext a) appTestContent]
      else [])
  ++ (if a.git then
        [Step.cmd (cdPath cwd a.projectName "git init"),
         Step.write ".gitignore" gitignoreContent,
         Step.cmd (cdPath cwd a.projectName
           "git add . && git commit -m \"Initial commit with SparkVite setup\"")]
      else [])
  ++ commonFolders.map (fun f => Step.mkdir ("src/" ++ f))
  ++ [Step.write ("src/pages/Home." ++ ext a) (homeContent a)]
  ++ (if a.router then
        [Step.write ("src/layouts/MainLayout." ++ ext a) mainLayoutContent,
         Step.write ("src/pages/About." ++ ext a) aboutContent,
         Step.write ("src/App." ++ ext a) appRoutesContent]
      else [])
  ++ (if a.stateManagement = StateManagement.contextAPI then
        [Step.write ("src/context/AppContext." ++ ext a) (appContextContent a)] else [])
  ++ (if a.stateManagement = StateManagement.zustand then
        [Step.write ("src/stores/useCounterStore." ++ storeExt a) (zustandStoreContent a)]
      else [])
  ++ (if a.stateManagement = StateManagement.redux then
        [Step.write ("src/stores/counterSlice." ++ storeExt a) (counterSliceContent a),
         Step.write ("src/stores/store." ++ storeExt a) (reduxStoreContent a)]
      else [])
  ++ [Step.write ("src/main." ++ ext a) (mainContentStr a)]
  ++ (if a.uiLibrary = UiLibrary.shadcn then
        [Step.cmd (cdPath cwd a.projectName "npx shadcn@latest init"),
         Step.cmd (cdPath cwd a.projectName "npx shadcn@latest add button")]
      else [])
  ++ [Step.write ".env.example" envContent,
      Step.write "README.md" (readmeContent a)]

/-- The external commands of a step list, in order. -/
def cmdsOf (l : List Step) : List String :=
  l.filterMap (fun s => match s with | .cmd c => some c | _ => Option.none)

/-- The file writes of a step list, in order. -/
def writesOf (l : List Step) : List (String × String) :=
  l.filterMap (fun s => match s with | .write p c => some (p, c) | _ => Option.none)

/-- The directory creations of a step list, in order. -/
def dirsOf (l : List Step) : List String :=
  l.filterMap (fun s => match s with | .mkdir p => some p | _ => Option.none)

/-- The JSON patches of a step list, in order. -/
def patchesOf (l : List Step) : List String :=
  l.filterMap (fun s => match s with | .patch p => some p | _ => Option.none)

/-- The Command Planner: the external commands the run will attempt, in
execution order. -/
def planCommands (cwd : String) (a : Answers) (tsAppExists : Bool) : List String :=
  cmdsOf (steps cwd a tsAppExists)

/-- The File Planner (full-overwrite writes): the `(path, content)` pairs the
run will write, in order, paths relative to the project directory. -/
def planFiles (cwd : String) (a : Answers) (tsAppExists : Bool) : List (String × String) :=
  writesOf (steps cwd a tsAppExists)

/-- The directories the folder-skeleton step creates. -/
def planDirs (cwd : String) (a : Answers) (tsAppExists : Bool) : List String :=
  dirsOf (steps cwd a tsAppExists)

/-! ### The Orchestrator -/

/-- Execution trace state. -/
structure ExecState where
  cmdsRun : List String
  filesWritten : List (String × String)
  dirsMade : List String
  patched : List String
  failed : Bool
deriving DecidableEq

/-- The empty trace. -/
def initExec : ExecState :=
  { cmdsRun := [], filesWritten := [], dirsMade := [], patched := [], failed := false }

/-- Run the steps in order; `fails k` says whether the `k`-th external
command (counting executed commands from 0) exits non-zero. The first
failing command throws: its step is recorded and nothing later runs. -/
def execSteps (fails : Nat → Bool) : List Step → Nat → ExecState → ExecState
  | [], _, s => s
  | step :: rest, k, s =>
    match step with
    | .cmd c =>
      if fails k then { s with cmdsRun := s.cmdsRun ++ [c], failed := true }
      else execSteps fails rest (k + 1) { s with cmdsRun := s.cmdsRun ++ [c] }
    | .write p c => execSteps fails rest k { s with filesWritten := s.filesWritten ++ [(p, c)] }
    | .mkdir p => execSteps fails rest k { s with dirsMade := s.dirsMade ++ [p] }
    | .patch p => execSteps fails rest k { s with patched := s.patched ++ [p] }

/-- The run's environment: everything outside the script's control. -/
structure Env where
  cwd : String
  nodeVersion : String
  dirExists : Bool
  overwriteAnswer : Bool
  tsAppExists : Bool
  createLeavesDirOnFail : Bool
  fails : Nat → Bool

/-- The observable outcome of one invocation. -/
structure RunResult where
  exitCode : Nat
  cmdsRun : List String
  filesWritten : List (String × String)
  dirsMade : List String
  patched : List String
  preexistingDeleted : Bool
  rolledBack : Bool
  projectDirAtEnd : Bool
deriving DecidableEq

/-- The catch/success epilogue of the `try` block: on failure the project
directory — which exists whenever a command after the scaffold ran, and on a
failed scaffold only if the environment left one — is recursively deleted
and the exit code is 1; on success the exit code is 0. -/
def epilogue (env : Env) (s : ExecState) : RunResult :=
  if s.failed then
    let dirThere := decide (2 ≤ s.cmdsRun.length)
      || (decide (s.cmdsRun.length = 1) && env.createLeavesDirOnFail)
    { exitCode := 1, cmdsRun := s.cmdsRun, filesWritten := s.filesWritten,
      dirsMade := s.dirsMade, patched := s.patched,
      preexistingDeleted := env.dirExists, rolledBack := dirThere,
      projectDirAtEnd := false }
  else
    { exitCode := 0, cmdsRun := s.cmdsRun, filesWritten := s.filesWritten,
      dirsMade := s.dirsMade, patched := s.patched,
      preexistingDeleted := env.dirExists, rolledBack := false,
      projectDirAtEnd := true }

/-- The Orchestrator: the version gate, the overwrite prompt (declining
exits 0 before anything ran; accepting `rmSync`s the old directory), then
the step sequence with the catch/success epilogue. -/
def run (env : Env) (a : Answers) : RunResult :=
  if checkNodeVersion env.nodeVersion = false then
    { exitCode := 1, cmdsRun := [], filesWritten := [], dirsMade := [], patched := [],
      preexistingDeleted := false, rolledBack := false, projectDirAtEnd := env.dirExists }
  else if env.dirExists && !env.overwriteAnswer then
    { exitCode := 0, cmdsRun := [], filesWritten := [], dirsMade := [], patched := [],
      preexistingDeleted := false, rolledBack := false, projectDirAtEnd := true }
  else
    epilogue env (execSteps env.fails (steps env.cwd a env.tsAppExists) 0 initExec)

/-! ### Concrete inputs used by the spec's scenarios and the witnesses -/

/-- The scenario answers: `{projectName:"demo", packageManager:yarn,
language:TypeScript, uiLibrary:None, stateManagement:None, testing:false,
linting:false, git:false, router:false, pwa:false}`. -/
def demoAnswers : Answers :=
  { projectName := "demo", packageManager := .yarn, language := .typescript,
    uiLibrary := .none, stateManagement := .none,
    testing := false, linting := false, git := false, router := false, pwa := false }

/-- The demo answers with git, linting and testing enabled. -/
def fullAnswers : Answers :=
  { projectName := "demo", packageManager := .npm, language := .typescript,
    uiLibrary := .none, stateManagement := .redux,
    testing := true, linting := true, git := true, router := true, pwa := false }

/-- The demo answers with only linting enabled (same name and prefix). -/
def demoLint : Answers := { demoAnswers with linting := true }

/-- A sample scaffolded `package.json` with fields this tool does not own. -/
def pkgFs : List (String × Json) :=
  [("name", .str "demo"), ("private", .bool true), ("version", .str "0.0.0"),
   ("scripts", .obj [("dev", .str "vite"), ("build", .str "tsc -b && vite build"),
     ("preview", .str "vite preview")]),
   ("dependencies", .obj [("react", .str "^19.1.1")])]

/-- The paths of the planned file writes. -/
def planFilePaths (cwd : String) (a : Answers) (tsAppExists : Bool) : List String :=
  (planFiles cwd a tsAppExists).map Prod.fst

/-- No external command fails. -/
def noFail : Nat → Bool := fun _ => false

/-- Exactly the second executed command (the base install) fails. -/
def failAtOne : Nat → Bool := fun j => decide (j = 1)

/-- A healthy environment on Node 20 with no pre-existing directory. -/
def envOk : Env :=
  { cwd := "/home/user", nodeVersion := "v20.11.0", dirExists := false,
    overwriteAnswer := false, tsAppExists := true,
    createLeavesDirOnFail := false, fails := noFail }

/-- As `envOk` but the base install (command 1) exits non-zero. -/
def envFailBase : Env := { envOk with fails := failAtOne }

/-- The target directory pre-exists and the user declines the overwrite. -/
def envDecline : Env := { envOk with dirExists := true, overwriteAnswer := false }

/-- The target directory pre-exists and the user accepts the overwrite. -/
def envAccept : Env := { envOk with dirExists := true, overwriteAnswer := true }

/-- A healthy environment running Node 30. -/
def envV30 : Env := { envOk with nodeVersion := "v30.1.0" }

/-! ### Tameness: the value class the pretty printer round-trips

The parser only produces such values: strings whose characters are either
printable or among the named escapes (no other control characters). -/

/-- A character the printer needs no `\u` escape for. -/
def tameChar (c : Char) : Bool :=
  32 ≤ c.toNat || c = '\n' || c = '\t' || c = '\r' || c.toNat = 8 || c.toNat = 12

/-- A string of tame characters. -/
def tameStr (s : String) : Bool := s.data.all tameChar

mutual

/-- A value whose strings are all tame. -/
def tameJ : Json → Bool
  | .null => true
  | .bool _ => true
  | .num _ => true
  | .str s => tameStr s
  | .arr xs => tameArr xs
  | .obj fs => tameObj fs

/-- All elements tame. -/
def tameArr : List Json → Bool
  | [] => true
  | x :: xs => tameJ x && tameArr xs

/-- All keys and values tame. -/
def tameObj : List (String × Json) → Bool
  | [] => true
  | (k, v) :: fs => tameStr k && tameJ v && tameObj fs

end

/-- A remainder that cannot extend a rendered number: empty or headed by a
character that is no digit and none of `.`, `e`, `E` — every position a
rendered value's tail puts after a number qualifies. -/
def numBoundary : List Char → Bool
  | [] => true
  | c :: _ => !(isDig c || c = '.' || c = 'e' || c = 'E')

/-- A commented type-config text whose `homepage` string value contains
`//`: line-comment stripping truncates the value mid-string. -/
def cexTsconfigApp : String :=
  "\x7b\n  /* vite template */\n  \"compilerOptions\": \x7b\n    \"target\": \"ES2022\"\n  \x7d,\n  \"homepage\": \"http://localhost\" // dev only\n\x7d"

/-- The same text with the line comment on a boolean field instead: the
comments sit outside every string value and stripping is harmless. -/
def cexTsconfigAppClean : String :=
  "\x7b\n  /* vite template */\n  \"compilerOptions\": \x7b\n    \"target\": \"ES2022\"\n  \x7d,\n  \"strict\": true // dev only\n\x7d"

/-- The member list the clean variant parses to after stripping. -/
def cleanFs : List (String × Json) :=
  [("compilerOptions", Json.obj [("target", Json.str "ES2022")]),
   ("strict", Json.bool true)]

/-- Its `compilerOptions` member list. -/
def cleanCos : List (String × Json) := [("target", Json.str "ES2022")]

/-! ## Trace-extraction lemmas -/

@[simp] theorem cmdsOf_nil : cmdsOf [] = [] := rfl

@[simp] theorem cmdsOf_append (l₁ l₂ : List Step) :
    cmdsOf (l₁ ++ l₂) = cmdsOf l₁ ++ cmdsOf l₂ := List.filterMap_append ..

@[simp] theorem cmdsOf_cons_cmd (c : String) (l : List Step) :
    cmdsOf (Step.cmd c :: l) = c :: cmdsOf l := rfl

@[simp] theorem cmdsOf_cons_write (p c : String) (l : List Step) :
    cmdsOf (Step.write p c :: l) = cmdsOf l := rfl

@[simp] theorem cmdsOf_cons_mkdir (p : String) (l : List Step) :
    cmdsOf (Step.mkdir p :: l) = cmdsOf l := rfl

@[simp] theorem cmdsOf_cons_patch (p : String) (l : List Step) :
    cmdsOf (Step.patch p :: l) = cmdsOf l := rfl

theorem cmdsOf_ite (b : Prop) [Decidable b] (l₁ l₂ : List Step) :
    cmdsOf (if b then l₁ else l₂) = if b then cmdsOf l₁ else cmdsOf l₂ :=
  apply_ite cmdsOf b l₁ l₂

@[simp] theorem writesOf_nil : writesOf [] = [] := rfl

@[simp] theorem writesOf_append (l₁ l₂ : List Step) :
    writesOf (l₁ ++ l₂) = writesOf l₁ ++ writesOf l₂ := List.filterMap_append ..

@[simp] theorem writesOf_cons_cmd (c : String) (l : List Step) :
    writesOf (Step.cmd c :: l) = writesOf l := rfl

@[simp] theorem writesOf_cons_write (p c : String) (l : List Step) :
    writesOf (Step.write p c :: l) = (p, c) :: writesOf l := rfl

@[simp] theorem writesOf_cons_mkdir (p : String) (l : List Step) :
    writesOf (Step.mkdir p :: l) = writesOf l := rfl

@[simp] theorem writesOf_cons_patch (p : String) (l : List Step) :
    writesOf (Step.patch p :: l) = writesOf l := rfl

theorem writesOf_ite (b : Prop) [Decidable b] (l₁ l₂ : List Step) :
    writesOf (if b then l₁ else l₂) = if b then writesOf l₁ else writesOf l₂ :=
  apply_ite writesOf b l₁ l₂

@[simp] theorem dirsOf_nil : dirsOf [] = [] := rfl

@[simp] theorem dirsOf_append (l₁ l₂ : List Step) :
    dirsOf (l₁ ++ l₂) = dirsOf l₁ ++ dirsOf l₂ := List.filterMap_append ..

@[simp] theorem dirsOf_cons_cmd (c : String) (l : List Step) :
    dirsOf (Step.cmd c :: l) = dirsOf l := rfl

@[simp] theorem dirsOf_cons_write (p c : String) (l : List Step) :
    dirsOf (Step.write p c :: l) = dirsOf l := rfl

@[simp] theorem dirsOf_cons_mkdir (p : String) (l : List Step) :
    dirsOf (Step.mkdir p :: l) = p :: dirsOf l := rfl

@[simp] theorem dirsOf_cons_patch (p : String) (l : List Step) :
    dirsOf (Step.patch p :: l) = dirsOf l := rfl

theorem dirsOf_ite (b : Prop) [Decidable b] (l₁ l₂ : List Step) :
    dirsOf (if b then l₁ else l₂) = if b then dirsOf l₁ else dirsOf l₂ :=
  apply_ite dirsOf b l₁ l₂

@[simp] theorem patchesOf_nil : patchesOf [] = [] := rfl

@[simp] theorem patchesOf_append (l₁ l₂ : List Step) :
    patchesOf (l₁ ++ l₂) = patchesOf l₁ ++ patchesOf l₂ := List.filterMap_append ..

@[simp] theorem patchesOf_cons_cmd (c : String) (l : List Step) :
    patchesOf (Step.cmd c :: l) = patchesOf l := rfl

@[simp] theorem patchesOf_cons_write (p c : String) (l : List Step) :
    patchesOf (Step.write p c :: l) = patchesOf l := rfl

@[simp] theorem patchesOf_cons_mkdir (p : String) (l : List Step) :
    patchesOf (Step.mkdir p :: l) = patchesOf l := rfl

@[simp] theorem patchesOf_cons_patch (p : String) (l : List Step) :
    patchesOf (Step.patch p :: l) = p :: patchesOf l := rfl

theorem patchesOf_ite (b : Prop) [Decidable b] (l₁ l₂ : List Step) :
    patchesOf (if b then l₁ else l₂) = if b then patchesOf l₁ else patchesOf l₂ :=
  apply_ite patchesOf b l₁ l₂

/-! ## Orchestration lemmas -/

/-- A run with no failing command collects every command, write, directory
and patch of the step list, in order. -/
theorem execSteps_success (f : Nat → Bool) (hf : ∀ j, f j = false) :
    ∀ (l : List Step) (k : Nat) (s : ExecState),
      execSteps f l k s =
        { cmdsRun := s.cmdsRun ++ cmdsOf l,
          filesWritten := s.filesWritten ++ writesOf l,
          dirsMade := s.dirsMade ++ dirsOf l,
          patched := s.patched ++ patchesOf l,
          failed := s.failed } := by
  intro l
  induction l with
  | nil => intro k s; simp [execSteps]
  | cons st rest ih =>
    intro k s
    cases st with
    | cmd c => simp [execSteps, hf k, ih]
    | write p c => simp [execSteps, ih]
    | mkdir p => simp [execSteps, ih]
    | patch p => simp [execSteps, ih]

/-- If the `i`-th external command is the first to fail (and the list has at
least `i + 1` commands), execution marks failure and has run exactly the
commands up to and including it. -/
theorem execSteps_failure (f : Nat → Bool) :
    ∀ (l : List Step) (i k : Nat) (s : ExecState),
      (∀ j, j < i → f (k + j) = false) → f (k + i) = true →
      i < (cmdsOf l).length →
      (execSteps f l k s).failed = true ∧
      (execSteps f l k s).cmdsRun = s.cmdsRun ++ (cmdsOf l).take (i + 1) := by
  intro l
  induction l with
  | nil => intro i k s _ _ hi; simp at hi
  | cons st rest ih =>
    intro i k s hpre hf hi
    cases st with
    | cmd c =>
      by_cases hi0 : i = 0
      · subst hi0
        have hk : f k = true := by simpa using hf
        simp [execSteps, hk]
      · have hk : f k = false := by simpa using hpre 0 (by omega)
        have hstep : execSteps f (Step.cmd c :: rest) k s
            = execSteps f rest (k + 1) { s with cmdsRun := s.cmdsRun ++ [c] } := by
          simp [execSteps, hk]
        have hpre' : ∀ j, j < i - 1 → f (k + 1 + j) = false := by
          intro j hj
          have := hpre (j + 1) (by omega)
          rwa [show k + 1 + j = k + (j + 1) by omega]
        have hf' : f (k + 1 + (i - 1)) = true := by
          rwa [show k + 1 + (i - 1) = k + i by omega]
        have hi' : i - 1 < (cmdsOf rest).length := by
          simp at hi; omega
        obtain ⟨h₁, h₂⟩ := ih (i - 1) (k + 1) { s with cmdsRun := s.cmdsRun ++ [c] } hpre' hf' hi'
        rw [hstep]
        refine ⟨h₁, ?_⟩
        rw [h₂]
        simp [show i - 1 + 1 = i by omega, List.take_succ_cons]
    | write p c =>
      have := ih i k { s with filesWritten := s.filesWritten ++ [(p, c)] } hpre hf (by simpa using hi)
      simpa [execSteps] using this
    | mkdir p =>
      have := ih i k { s with dirsMade := s.dirsMade ++ [p] } hpre hf (by simpa using hi)
      simpa [execSteps] using this
    | patch p =>
      have := ih i k { s with patched := s.patched ++ [p] } hpre hf (by simpa using hi)
      simpa [execSteps] using this

/-- No state-management option creates a directory at install time. -/
theorem dirsOf_stateInstall (a : Answers) : dirsOf (stateInstallSteps a) = [] := by
  cases h : a.stateManagement <;> simp [stateInstallSteps, h, installStep, dirsOf_ite]

/-- The lint install creates no directory. -/
theorem dirsOf_lintInstall (a : Answers) : dirsOf (lintInstallSteps a) = [] := by
  simp [lintInstallSteps, installStep, dirsOf_ite]

/-- The fields of the failure epilogue. -/
theorem epilogue_failed (env : Env) (s : ExecState) (h : s.failed = true) :
    epilogue env s =
      { exitCode := 1, cmdsRun := s.cmdsRun, filesWritten := s.filesWritten,
        dirsMade := s.dirsMade, patched := s.patched,
        preexistingDeleted := env.dirExists,
        rolledBack := decide (2 ≤ s.cmdsRun.length)
          || (decide (s.cmdsRun.length = 1) && env.createLeavesDirOnFail),
        projectDirAtEnd := false } := by
  simp [epilogue, h]

/-- The fields of the success epilogue. -/
theorem epilogue_ok (env : Env) (s : ExecState) (h : s.failed = false) :
    epilogue env s =
      { exitCode := 0, cmdsRun := s.cmdsRun, filesWritten := s.filesWritten,
        dirsMade := s.dirsMade, patched := s.patched,
        preexistingDeleted := env.dirExists, rolledBack := false,
        projectDirAtEnd := true } := by
  simp [epilogue, h]

/-- Whether the epilogue failed or not, the pre-existing directory was
deleted exactly when it existed (the prompt was accepted to get here). -/
theorem epilogue_preexisting (env : Env) (s : ExecState) :
    (epilogue env s).preexistingDeleted = env.dirExists := by
  unfold epilogue
  split <;> rfl

/-- Past the version gate and the overwrite prompt, the run is the step
execution followed by the failure/success epilogue. -/
theorem run_of_passed (env : Env) (a : Answers)
    (hver : checkNodeVersion env.nodeVersion = true)
    (hgo : env.dirExists = false ∨ env.overwriteAnswer = true) :
    run env a =
      epilogue env (execSteps env.fails (steps env.cwd a env.tsAppExists) 0 initExec) := by
  have hcond2 : (env.dirExists && !env.overwriteAnswer) = false := by
    rcases hgo with h | h <;> simp [h]
  unfold run
  rw [hver, if_neg (by decide), hcond2, if_neg (by decide)]

/-- A failure-free run past the gate and prompt performs the whole plan and
exits 0. -/
theorem run_success (env : Env) (a : Answers)
    (hver : checkNodeVersion env.nodeVersion = true)
    (hgo : env.dirExists = false ∨ env.overwriteAnswer = true)
    (hf : ∀ j, env.fails j = false) :
    run env a =
      { exitCode := 0,
        cmdsRun := planCommands env.cwd a env.tsAppExists,
        filesWritten := planFiles env.cwd a env.tsAppExists,
        dirsMade := planDirs env.cwd a env.tsAppExists,
        patched := patchesOf (steps env.cwd a env.tsAppExists),
        preexistingDeleted := env.dirExists, rolledBack := false,
        projectDirAtEnd := true } := by
  rw [run_of_passed env a hver hgo]
  have hs := execSteps_success env.fails hf (steps env.cwd a env.tsAppExists) 0 initExec
  rw [hs, epilogue_ok env _ (by rfl)]
  simp [initExec, planCommands, planFiles, planDirs]

/-! ## C1 — failure after directory creation: rollback and exit 1 -/

/-- C1: if a planned external command exits non-zero after the project
directory was created (the scaffold command succeeded, or the failing
scaffold itself left a directory), then no later planned command runs — the
trace is exactly the plan up to and including the failing command — the
project directory is recursively deleted by the rollback, and the process
exits with code 1. -/
theorem claim_C1_rollback (env : Env) (a : Answers) (i : Nat)
    (hver : checkNodeVersion env.nodeVersion = true)
    (hgo : env.dirExists = false ∨ env.overwriteAnswer = true)
    (hpre : ∀ j, j < i → env.fails j = false)
    (hfail : env.fails i = true)
    (hlt : i < (planCommands env.cwd a env.tsAppExists).length)
    (hcreated : 1 ≤ i ∨ env.createLeavesDirOnFail = true) :
    (run env a).exitCode = 1 ∧
    (run env a).cmdsRun = (planCommands env.cwd a env.tsAppExists).take (i + 1) ∧
    (run env a).rolledBack = true ∧
    (run env a).projectDirAtEnd = false := by
  obtain ⟨hfailed, hcmds⟩ :=
    execSteps_failure env.fails (steps env.cwd a env.tsAppExists) i 0 initExec
      (by intro j hj; simpa using hpre j hj) (by simpa using hfail)
      (by simpa [planCommands] using hlt)
  have hlen : ((cmdsOf (steps env.cwd a env.tsAppExists)).take (i + 1)).length = i + 1 := by
    rw [List.length_take]
    have : i < (cmdsOf (steps env.cwd a env.tsAppExists)).length := by
      simpa [planCommands] using hlt
    omega
  rw [run_of_passed env a hver hgo, epilogue_failed env _ hfailed, hcmds]
  refine ⟨rfl, by simp [planCommands, initExec], ?_, rfl⟩
  simp only [initExec, List.nil_append, hlen]
  rcases hcreated with h | h
  · simp only [Bool.or_eq_true, decide_eq_true_eq]
    left; omega
  · by_cases hi0 : i = 0
    · subst hi0
      simp [h]
    · simp only [Bool.or_eq_true, decide_eq_true_eq]
      left; omega

/-- Witness for C1: yarn demo project, base install (command 1) fails. -/
theorem claim_C1_rollback_witness :
    (checkNodeVersion envFailBase.nodeVersion = true ∧
     (∀ j, j < 1 → envFailBase.fails j = false) ∧ envFailBase.fails 1 = true ∧
     1 < (planCommands envFailBase.cwd demoAnswers envFailBase.tsAppExists).length) ∧
    ((run envFailBase demoAnswers).exitCode = 1 ∧
     (run envFailBase demoAnswers).cmdsRun =
       (planCommands envFailBase.cwd demoAnswers envFailBase.tsAppExists).take 2 ∧
     (run envFailBase demoAnswers).rolledBack = true ∧
     (run envFailBase demoAnswers).projectDirAtEnd = false) :=
  ⟨⟨by decide, by decide, by decide, by decide⟩,
   claim_C1_rollback envFailBase demoAnswers 1 (by decide) (Or.inl (by decide))
     (by decide) (by decide) (by decide) (Or.inl (by decide))⟩

/-! ## C5 — the overwrite prompt -/

/-- C5: when the target directory pre-exists, declining the overwrite
prompt terminates the run with exit code 0 before any command ran, any file
was written, any directory was made or any manifest was patched; accepting
recursively deletes the pre-existing directory before proceeding. -/
theorem claim_C5_overwrite_prompt (env : Env) (a : Answers)
    (hver : checkNodeVersion env.nodeVersion = true)
    (hex : env.dirExists = true) :
    (env.overwriteAnswer = false →
      (run env a).exitCode = 0 ∧ (run env a).cmdsRun = [] ∧
      (run env a).filesWritten = [] ∧ (run env a).dirsMade = [] ∧
      (run env a).patched = []) ∧
    (env.overwriteAnswer = true → (run env a).preexistingDeleted = true) := by
  constructor
  · intro hov
    simp [run, hver, hex, hov]
  · intro hov
    rw [run_of_passed env a hver (Or.inr hov), epilogue_preexisting, hex]

/-- Witness for C5: declining aborts with a clean trace; accepting deletes
the pre-existing directory. -/
theorem claim_C5_overwrite_prompt_witness :
    (envDecline.dirExists = true ∧ envDecline.overwriteAnswer = false ∧
     (run envDecline demoAnswers).exitCode = 0 ∧
     (run envDecline demoAnswers).cmdsRun = [] ∧
     (run envDecline demoAnswers).filesWritten = []) ∧
    (envAccept.dirExists = true ∧ envAccept.overwriteAnswer = true ∧
     (run envAccept demoAnswers).preexistingDeleted = true) := by
  refine ⟨⟨by decide, by decide, ?_⟩, ⟨by decide, by decide, ?_⟩⟩
  · have h := (claim_C5_overwrite_prompt envDecline demoAnswers (by decide) (by decide)).1
      (by decide)
    exact ⟨h.1, h.2.1, h.2.2.1⟩
  · exact (claim_C5_overwrite_prompt envAccept demoAnswers (by decide) (by decide)).2
      (by decide)

/-! ## C3 — the demo scenario's command plan -/

/-- Counterexample to C3 as stated: the demo answers plan four external
commands, not three — the `@types/node` dev install required by
`language == typed` is the fourth. -/
theorem claim_C3_cex :
    (planCommands "/home/user" demoAnswers true).length = 4 ∧
    ¬ (planCommands "/home/user" demoAnswers true).length = 3 := by
  decide

/-- C3 amended: for the demo answers, exactly four commands are planned
(scaffold, base install, CSS-framework install, node type declarations), and
a failure-free run executes exactly the plan and exits 0. -/
theorem claim_C3_demo_commands :
    (∀ (cwd : String) (ts : Bool),
      planCommands cwd demoAnswers ts =
        ["yarn create vite demo --template react-ts",
         "cd demo && yarn install",
         "cd demo && yarn add tailwindcss @tailwindcss/vite",
         "cd demo && yarn add -D @types/node"]) ∧
    (∀ env : Env, checkNodeVersion env.nodeVersion = true → env.dirExists = false →
      env.fails = noFail →
      (run env demoAnswers).exitCode = 0 ∧
      (run env demoAnswers).cmdsRun = planCommands env.cwd demoAnswers env.tsAppExists) := by
  constructor
  · intro cwd ts
    cases ts <;> rfl
  · intro env hver hdir hfails
    have h := run_success env demoAnswers hver (Or.inl hdir) (by intro j; rw [hfails]; rfl)
    rw [h]
    exact ⟨rfl, rfl⟩

/-- Witness for C3 (amended): the concrete four-command plan and a clean run. -/
theorem claim_C3_demo_commands_witness :
    (planCommands "/home/user" demoAnswers true =
      ["yarn create vite demo --template react-ts",
       "cd demo && yarn install",
       "cd demo && yarn add tailwindcss @tailwindcss/vite",
       "cd demo && yarn add -D @types/node"]) ∧
    (checkNodeVersion envOk.nodeVersion = true ∧
     (run envOk demoAnswers).exitCode = 0 ∧
     (run envOk demoAnswers).cmdsRun = planCommands envOk.cwd demoAnswers envOk.tsAppExists) :=
  ⟨claim_C3_demo_commands.1 "/home/user" true,
   by
    have h := claim_C3_demo_commands.2 envOk (by decide) (by decide) rfl
    exact ⟨by decide, h.1, h.2⟩⟩

/-! ## C4 — the folder skeleton -/

/-- Counterexample to C4 as stated: with `stateManagement = none` the plan
still creates seven directories including `src/stores`, not six without it. -/
theorem claim_C4_cex :
    demoAnswers.stateManagement = StateManagement.none ∧
    "src/stores" ∈ planDirs "/home/user" demoAnswers true ∧
    ¬ (planDirs "/home/user" demoAnswers true).length = 6 := by
  decide

/-- C4 amended: the folder-skeleton step creates the same seven
subdirectories (components, pages, utils, hooks, context, layouts, stores)
for every Answers value — `stores` is created unconditionally. -/
theorem claim_C4_folders (cwd : String) (a : Answers) (ts : Bool) :
    planDirs cwd a ts =
      ["src/components", "src/pages", "src/utils", "src/hooks", "src/context",
       "src/layouts", "src/stores"] := by
  simp [planDirs, steps, dirsOf_ite, dirsOf_stateInstall, dirsOf_lintInstall, commonFolders,
    installStep]

/-! ## C2 — wrapper nesting in the entry file -/

/-- Counterexample to C2 as stated: with Zustand and the router enabled the
entry tree is exactly the router-wrapped app — no state-management wrapper
surrounds it at all. -/
theorem claim_C2_cex :
    ¬ ∃ o c : String, o ≠ "" ∧
      appWrapperStr true StateManagement.zustand = o ++ routerWrapStr ++ c := by
  rintro ⟨o, c, ho, he⟩
  have hz : appWrapperStr true StateManagement.zustand = routerWrapStr := rfl
  rw [hz] at he
  have hlen := congrArg String.length he
  rw [String.length_append, String.length_append] at hlen
  have ho0 : o.length = 0 := by omega
  apply ho
  cases o with
  | mk d =>
    have hd : d.length = 0 := ho0
    have hnil : d = [] := List.length_eq_zero.mp hd
    subst hnil
    rfl

/-- C2 amended: with the router enabled, Context API and Redux wrap the
router-wrapped app from the outside — stateWrapper(routerWrapper(app)), never
the reverse — while Zustand adds no wrapper and leaves the router-wrapped
app as the tree. -/
theorem claim_C2_nesting :
    (∀ sm : StateManagement,
      sm = StateManagement.contextAPI ∨ sm = StateManagement.redux →
      appWrapperStr true sm =
        stateOpenStr sm ++ "\n    " ++ routerWrapStr ++ "\n  " ++ stateCloseStr sm) ∧
    appWrapperStr true StateManagement.zustand = routerWrapStr := by
  constructor
  · rintro sm (rfl | rfl) <;> rfl
  · rfl

/-- Witness for C2 (amended): the Context API nesting, state wrapper
outermost. -/
theorem claim_C2_nesting_witness :
    appWrapperStr true StateManagement.contextAPI =
      stateOpenStr StateManagement.contextAPI ++ "\n    " ++ routerWrapStr ++ "\n  " ++
        stateCloseStr StateManagement.contextAPI :=
  claim_C2_nesting.1 StateManagement.contextAPI (Or.inl rfl)

/-! ## C6 — install-command syntax and batching -/

/-- C6: install commands use each manager's own verb (`install` for npm,
`add` for the rest) and dev flag (`-D` for npm/yarn/pnpm, `-d` for bun), and
the lint category — the one built from a package list — is batched into a
single command over the space-joined list, which the plan runs as one
command. -/
theorem claim_C6_install_verbs :
    (∀ (pkgs : String) (isDev : Bool),
      getInstallCmd PackageManager.npm pkgs isDev =
        "npm install " ++ (if isDev then "-D " else "") ++ pkgs ∧
      getInstallCmd PackageManager.yarn pkgs isDev =
        "yarn add " ++ (if isDev then "-D " else "") ++ pkgs ∧
      getInstallCmd PackageManager.pnpm pkgs isDev =
        "pnpm add " ++ (if isDev then "-D " else "") ++ pkgs ∧
      getInstallCmd PackageManager.bun pkgs isDev =
        "bun add " ++ (if isDev then "-d " else "") ++ pkgs) ∧
    (∀ a : Answers, a.linting = true →
      cmdsOf (lintInstallSteps a) =
        [cdName a.projectName (getInstallCmd a.packageManager
          (String.intercalate " " (lintDeps a)) true)]) ∧
    (∀ (cwd : String) (ts : Bool) (a : Answers), a.linting = true →
      cdName a.projectName (getInstallCmd a.packageManager
        (String.intercalate " " (lintDeps a)) true) ∈ planCommands cwd a ts) := by
  refine ⟨?_, ?_, ?_⟩
  · intro pkgs isDev
    cases isDev <;> exact ⟨rfl, rfl, rfl, rfl⟩
  · intro a h
    simp [lintInstallSteps, h, installStep]
  · intro cwd ts a h
    simp [planCommands, steps, cmdsOf_ite, lintInstallSteps, h, installStep]

/-- Witness for C6: the npm dev install of the TypeScript lint list is a
single batched command. -/
theorem claim_C6_install_verbs_witness :
    (getInstallCmd PackageManager.bun "vite-plugin-pwa" true =
      "bun add " ++ "-d " ++ "vite-plugin-pwa") ∧
    (fullAnswers.linting = true ∧
     cmdsOf (lintInstallSteps fullAnswers) =
       [cdName fullAnswers.projectName (getInstallCmd fullAnswers.packageManager
         (String.intercalate " " (lintDeps fullAnswers)) true)] ∧
     cdName fullAnswers.projectName (getInstallCmd fullAnswers.packageManager
       (String.intercalate " " (lintDeps fullAnswers)) true)
         ∈ planCommands "/home/user" fullAnswers true) := by
  refine ⟨?_, by decide, ?_, ?_⟩
  · have h := (claim_C6_install_verbs.1 "vite-plugin-pwa" true).2.2.2
    simpa using h
  · exact claim_C6_install_verbs.2.1 fullAnswers (by decide)
  · exact claim_C6_install_verbs.2.2 "/home/user" true fullAnswers (by decide)

/-! ## Association-list lemmas for the JSON patches -/

/-- Setting a key makes it present with the new value. -/
theorem lookupField_setField_self (fs : List (String × Json)) (k : String) (v : Json) :
    lookupField (setField fs k v) k = some v := by
  induction fs with
  | nil => simp [setField, lookupField]
  | cons f rest ih =>
    obtain ⟨k', v'⟩ := f
    by_cases h : k' = k
    · subst h
      simp [setField, lookupField]
    · simp [setField, lookupField, h, ih]

/-- Setting a key leaves every other key's binding unchanged. -/
theorem lookupField_setField_ne (fs : List (String × Json)) (k k' : String) (v : Json)
    (h : k' ≠ k) :
    lookupField (setField fs k v) k' = lookupField fs k' := by
  have hks : ¬ (k = k') := fun hh => h hh.symm
  induction fs with
  | nil => simp [setField, lookupField, hks]
  | cons f rest ih =>
    obtain ⟨k'', v''⟩ := f
    by_cases h2 : k'' = k
    · subst h2
      simp [setField, lookupField, hks]
    · simp [setField, lookupField, h2, ih]

/-- The keys after a set are the old keys plus the set key. -/
theorem mem_map_fst_setField (fs : List (String × Json)) (k k' : String) (v : Json) :
    k' ∈ (setField fs k v).map Prod.fst ↔ k' ∈ fs.map Prod.fst ∨ k' = k := by
  induction fs with
  | nil => simp [setField]
  | cons f rest ih =>
    obtain ⟨k'', v''⟩ := f
    by_cases h : k'' = k
    · subst h
      simp [setField]
      tauto
    · simp [setField, h, ih]
      tauto

/-! ## C7 — package-manifest mutations are read-merge-write -/

/-- C7: both `package.json` mutations (lint scripts and test script) keep
every top-level field other than `scripts` bound exactly as before, keep
every script other than the owned ones (`lint`, `lint:fix`, `format` for the
lint patch; `test` for the test patch) bound as in the original `scripts`
object, and set exactly the owned keys to their values — never a blind
overwrite of the file. -/
theorem claim_C7_manifest_merge (fs : List (String × Json))
    (h : lookupField fs "scripts" = Option.none ∨
         ∃ sfs, lookupField fs "scripts" = some (Json.obj sfs)) :
    (∀ k, k ≠ "scripts" →
      lookupField (patchLintScripts (Json.obj fs)).fields k = lookupField fs k) ∧
    (∀ k, k ≠ "scripts" →
      lookupField (patchTestScripts (Json.obj fs)).fields k = lookupField fs k) ∧
    (∃ sc, lookupField (patchLintScripts (Json.obj fs)).fields "scripts"
        = some (Json.obj sc) ∧
      lookupField sc "lint" = some (Json.str
        "eslint . --ext js,jsx,ts,tsx --report-unused-disable-directives --max-warnings 0") ∧
      lookupField sc "lint:fix" = some (Json.str "npm run lint -- --fix") ∧
      lookupField sc "format" = some (Json.str "prettier --write .") ∧
      (∀ k, k ≠ "lint" → k ≠ "lint:fix" → k ≠ "format" →
        lookupField sc k =
          lookupField (orEmptyObj (lookupField fs "scripts")).fields k)) ∧
    (∃ sc, lookupField (patchTestScripts (Json.obj fs)).fields "scripts"
        = some (Json.obj sc) ∧
      lookupField sc "test" = some (Json.str "vitest") ∧
      (∀ k, k ≠ "test" →
        lookupField sc k =
          lookupField (orEmptyObj (lookupField fs "scripts")).fields k)) := by
  obtain ⟨S, hS⟩ : ∃ S, orEmptyObj (lookupField fs "scripts") = Json.obj S := by
    rcases h with h | ⟨sfs, h⟩
    · exact ⟨[], by simp [orEmptyObj, h]⟩
    · exact ⟨sfs, by simp [orEmptyObj, h, Json.truthy]⟩
  have hlint : patchLintScripts (Json.obj fs) =
      Json.obj (setField fs "scripts" (Json.obj
        (setField (setField (setField S "lint" (.str
          "eslint . --ext js,jsx,ts,tsx --report-unused-disable-directives --max-warnings 0"))
          "lint:fix" (.str "npm run lint -- --fix"))
          "format" (.str "prettier --write .")))) := by
    rw [patchLintScripts, hS]
    simp [Json.setKey]
  have htest : patchTestScripts (Json.obj fs) =
      Json.obj (setField fs "scripts" (Json.obj (setField S "test" (.str "vitest")))) := by
    rw [patchTestScripts, hS]
    simp [Json.setKey]
  refine ⟨?_, ?_, ?_, ?_⟩
  · intro k hk
    rw [hlint]
    exact lookupField_setField_ne fs "scripts" k _ hk
  · intro k hk
    rw [htest]
    exact lookupField_setField_ne fs "scripts" k _ hk
  · rw [hlint]
    refine ⟨_, lookupField_setField_self .., ?_, ?_, ?_, ?_⟩
    · rw [lookupField_setField_ne _ _ _ _ (by decide),
        lookupField_setField_ne _ _ _ _ (by decide)]
      exact lookupField_setField_self ..
    · rw [lookupField_setField_ne _ _ _ _ (by decide)]
      exact lookupField_setField_self ..
    · exact lookupField_setField_self ..
    · intro k h1 h2 h3
      rw [lookupField_setField_ne _ _ _ _ h3, lookupField_setField_ne _ _ _ _ h2,
        lookupField_setField_ne _ _ _ _ h1, hS]
      rfl
  · rw [htest]
    refine ⟨_, lookupField_setField_self .., ?_, ?_⟩
    · exact lookupField_setField_self ..
    · intro k h1
      rw [lookupField_setField_ne _ _ _ _ h1, hS]
      rfl

/-- Witness for C7: on a sample scaffolded manifest, `version` and the `dev`
script survive the lint patch, which owns only its three script keys. -/
theorem claim_C7_manifest_merge_witness :
    (∃ sfs, lookupField pkgFs "scripts" = some (Json.obj sfs)) ∧
    lookupField (patchLintScripts (Json.obj pkgFs)).fields "version"
      = lookupField pkgFs "version" ∧
    lookupField (patchTestScripts (Json.obj pkgFs)).fields "dependencies"
      = lookupField pkgFs "dependencies" :=
  ⟨⟨[("dev", .str "vite"), ("build", .str "tsc -b && vite build"),
     ("preview", .str "vite preview")], rfl⟩,
   (claim_C7_manifest_merge pkgFs (Or.inr ⟨_, rfl⟩)).1 "version" (by decide),
   (claim_C7_manifest_merge pkgFs (Or.inr ⟨_, rfl⟩)).2.1 "dependencies" (by decide)⟩

/-! ## C9 — the always-written files -/

/-- Membership in a conditional block that is otherwise empty. -/
theorem mem_ite_nil {α : Type} (c : Prop) [Decidable c] (x : α) (L : List α) :
    x ∈ (if c then L else []) ↔ c ∧ x ∈ L := by
  split <;> simp_all

/-- No state-management option writes a file at install time. -/
theorem writesOf_stateInstall (a : Answers) : writesOf (stateInstallSteps a) = [] := by
  cases h : a.stateManagement <;> simp [stateInstallSteps, h, installStep, writesOf_ite]

/-- The lint install writes no file. -/
theorem writesOf_lintInstall (a : Answers) : writesOf (lintInstallSteps a) = [] := by
  simp [lintInstallSteps, installStep, writesOf_ite]

/-- Counterexample to C9 as stated: with git disabled the ignore file is not
planned at all, and the README content depends on the linting flag, not only
on the project name and the script-invocation prefix. -/
theorem claim_C9_cex :
    demoAnswers.git = false ∧
    ¬ (".gitignore" ∈ planFilePaths "/home/user" demoAnswers true) ∧
    demoLint.projectName = demoAnswers.projectName ∧
    demoLint.packageManager = demoAnswers.packageManager ∧
    ¬ (readmeContent demoLint = readmeContent demoAnswers) := by
  decide

/-- C9 amended: the environment-sample file (fixed content) and the README
(templated with the project name, the manager name, the script prefix and
the linting/testing flags) are always written; the ignore file, with its
fixed content, is written exactly when git setup is enabled. -/
theorem claim_C9_fixed_files (cwd : String) (a : Answers) (ts : Bool) :
    (".env.example", envContent) ∈ planFiles cwd a ts ∧
    ("README.md", readmeContent a) ∈ planFiles cwd a ts ∧
    (a.git = true → (".gitignore", gitignoreContent) ∈ planFiles cwd a ts) ∧
    (a.git = false → ¬ (".gitignore" ∈ planFilePaths cwd a ts)) := by
  refine ⟨?_, ?_, ?_, ?_⟩
  · simp [planFiles, steps, writesOf_ite, installStep, writesOf_stateInstall,
      writesOf_lintInstall]
  · simp [planFiles, steps, writesOf_ite, installStep, writesOf_stateInstall,
      writesOf_lintInstall]
  · intro h
    simp [planFiles, steps, writesOf_ite, installStep, writesOf_stateInstall,
      writesOf_lintInstall, h]
  · intro h
    rcases a with ⟨pn, pm, lang, ui, sm, t, l, g, r, pw⟩
    simp only at h
    subst h
    cases lang <;>
      simp [planFilePaths, planFiles, steps, writesOf_ite, installStep,
        writesOf_stateInstall, writesOf_lintInstall, mem_ite_nil, Sparkvite.ext,
        isTS, storeExt, commonFolders]

/-- Witness for C9 (amended): the universal parts at the git-enabled answers. -/
theorem claim_C9_fixed_files_witness :
    (".env.example", envContent) ∈ planFiles "/home/user" fullAnswers true ∧
    ("README.md", readmeContent fullAnswers) ∈ planFiles "/home/user" fullAnswers true ∧
    (".gitignore", gitignoreContent) ∈ planFiles "/home/user" fullAnswers true := by
  obtain ⟨h1, h2, h3, _⟩ := claim_C9_fixed_files "/home/user" fullAnswers true
  exact ⟨h1, h2, h3 (by decide)⟩

/-! ## Decimal-rendering lemmas for the version gate -/

/-- Every character a decimal rendering produces is a digit character. -/
theorem natChars_digits : ∀ (fuel n : Nat), n < fuel →
    ∀ c ∈ natChars fuel n, ∃ d, d < 10 ∧ c = digitChar d := by
  intro fuel
  induction fuel with
  | zero => intro n h c _; exact absurd h (Nat.not_lt_zero n)
  | succ f ih =>
    intro n h c hc
    by_cases h10 : n < 10
    · simp [natChars, h10] at hc
      exact ⟨n, h10, hc⟩
    · simp [natChars, h10] at hc
      rcases hc with hc | hc
      · have hlt : n / 10 < n := Nat.div_lt_self (by omega) (by omega)
        exact ih (n / 10) (by omega) c hc
      · exact ⟨n % 10, by omega, hc⟩

/-- A decimal rendering is never empty. -/
theorem natChars_ne_nil (fuel n : Nat) (h : n < fuel) : natChars fuel n ≠ [] := by
  cases fuel with
  | zero => omega
  | succ f => by_cases h10 : n < 10 <;> simp [natChars, h10]

/-- Two-digit bound: a number at least 10 renders to at least two characters. -/
theorem natChars_len2 (fuel n : Nat) (h : n < fuel) (h10 : 10 ≤ n) :
    2 ≤ (natChars fuel n).length := by
  cases fuel with
  | zero => omega
  | succ f =>
    have hdiv : n / 10 < n := Nat.div_lt_self (by omega) (by omega)
    have hne := natChars_ne_nil f (n / 10) (by omega)
    have hpos : 1 ≤ (natChars f (n / 10)).length := List.length_pos.mpr hne
    simp [natChars, show ¬ n < 10 by omega]
    omega

/-- Three-digit bound: a number at least 100 renders to at least three
characters. -/
theorem natChars_len3 (fuel n : Nat) (h : n < fuel) (h100 : 100 ≤ n) :
    3 ≤ (natChars fuel n).length := by
  cases fuel with
  | zero => omega
  | succ f =>
    have hdiv : n / 10 < n := Nat.div_lt_self (by omega) (by omega)
    have h2 := natChars_len2 f (n / 10) (by omega) (by omega)
    simp [natChars, show ¬ n < 10 by omega]
    omega

/-- One-digit rendering. -/
theorem natChars_small (fuel n : Nat) (hf : 1 ≤ fuel) (h : n < 10) :
    natChars fuel n = [digitChar n] := by
  cases fuel with
  | zero => omega
  | succ f => simp [natChars, h]

/-- `decRepr` of a one-digit number. -/
theorem decRepr_data_lt10 (n : Nat) (h : n < 10) : (decRepr n).data = [digitChar n] := by
  show natChars (n + 1) n = _
  exact natChars_small (n + 1) n (by omega) h

/-- `decRepr` of a two-digit number. -/
theorem decRepr_data_two (n : Nat) (h1 : 10 ≤ n) (h2 : n < 100) :
    (decRepr n).data = [digitChar (n / 10), digitChar (n % 10)] := by
  show natChars (n + 1) n = _
  simp only [natChars, show ¬ n < 10 by omega, if_false]
  rw [natChars_small n (n / 10) (by omega) (by omega)]
  rfl

/-- A digit character is not a dot. -/
theorem digitChar_ne_dot (d : Nat) (h : d < 10) : digitChar d ≠ '.' := by
  interval_cases d <;> decide

/-! ## Version-pattern lemmas -/

/-- Three characters are too short for the anchored pattern. -/
theorem versionPattern_three (v c1 c2 : Char) : versionPatternOk [v, c1, c2] = false := by
  simp [versionPatternOk]

/-- With a dot in the second digit position, both alternatives fail. -/
theorem versionPattern_dot (c d : Char) (t : List Char) :
    versionPatternOk ('v' :: c :: '.' :: d :: t) = false := by
  simp [versionPatternOk]

/-- Without a dot after the two digit positions, the pattern fails. -/
theorem versionPattern_nodot (v c1 c2 c3 : Char) (t : List Char) (h : c3 ≠ '.') :
    versionPatternOk (v :: c1 :: c2 :: c3 :: t) = false := by
  simp [versionPatternOk, h]

/-- The two-digit character classes accept exactly 18–29. -/
theorem versionPattern_two (a b : Nat) (ha : a < 10) (hb : b < 10) (t : List Char) :
    versionPatternOk ('v' :: digitChar a :: digitChar b :: '.' :: t) = true ↔
      ((a = 1 ∧ 8 ≤ b) ∨ a = 2) := by
  interval_cases a <;> interval_cases b <;> simp [versionPatternOk, digitChar]

/-! ## C10 — the Node version gate accepts exactly majors 18–29 -/

/-- C10: on a Node version string `v<major>.<rest>` the startup gate passes
iff the major is between 18 and 29 inclusive — majors below 18 are rejected,
and majors 30 and above are rejected too by the two-digit pattern — and when
the gate fails the process exits with code 1 having run no command and
written no file. -/
theorem claim_C10_version_gate (m : Nat) (rest : String) (env : Env) (a : Answers)
    (henv : env.nodeVersion = "v" ++ decRepr m ++ "." ++ rest) :
    (checkNodeVersion env.nodeVersion = true ↔ (18 ≤ m ∧ m ≤ 29)) ∧
    (¬ (18 ≤ m ∧ m ≤ 29) →
      (run env a).exitCode = 1 ∧ (run env a).cmdsRun = [] ∧
      (run env a).filesWritten = [] ∧ (run env a).dirsMade = []) := by
  have hdata : ("v" ++ decRepr m ++ "." ++ rest).data
      = 'v' :: ((decRepr m).data ++ ('.' :: rest.data)) := by
    simp [String.data_append]
  have hiff : checkNodeVersion env.nodeVersion = true ↔ (18 ≤ m ∧ m ≤ 29) := by
    rw [henv, checkNodeVersion, hdata]
    by_cases h100 : m < 100
    · by_cases h10 : m < 10
      · rw [decRepr_data_lt10 m h10]
        rcases hrd : rest.data with _ | ⟨r0, rs⟩
        · simp [versionPattern_three]
          omega
        · simp [versionPattern_dot]
          omega
      · rw [decRepr_data_two m (by omega) h100]
        simp only [List.cons_append, List.nil_append]
        rw [versionPattern_two (m / 10) (m % 10) (by omega) (by omega)]
        omega
    · have hlen := natChars_len3 (m + 1) m (by omega) (by omega)
      have hdig := natChars_digits (m + 1) m (by omega)
      rw [show (decRepr m).data = natChars (m + 1) m from rfl]
      rcases hnc : natChars (m + 1) m with _ | ⟨d1, _ | ⟨d2, _ | ⟨d3, t⟩⟩⟩
      · rw [hnc] at hlen; simp at hlen
      · rw [hnc] at hlen; simp at hlen
      · rw [hnc] at hlen; simp at hlen
      · obtain ⟨d, hd, hd3⟩ := hdig d3 (by rw [hnc]; simp)
        simp only [List.cons_append]
        rw [versionPattern_nodot _ _ _ _ _ (hd3 ▸ digitChar_ne_dot d hd)]
        simp
        omega
  refine ⟨hiff, ?_⟩
  intro hout
  have hfalse : checkNodeVersion env.nodeVersion = false := by
    cases hb : checkNodeVersion env.nodeVersion
    · rfl
    · exact absurd (hiff.mp hb) hout
  rw [run, if_pos hfalse]
  exact ⟨rfl, rfl, rfl, rfl⟩

/-! ## Character-class lemmas for the JSON codec -/

/-- A digit character is none of the parser's structural characters. -/
theorem isDig_not_special (c : Char) (h : isDig c = true) :
    isBlank c = false ∧ c ≠ braceOpen ∧ c ≠ braceClose ∧ c ≠ '[' ∧ c ≠ ']' ∧
    c ≠ '"' ∧ c ≠ 't' ∧ c ≠ 'f' ∧ c ≠ 'n' ∧ c ≠ '-' ∧ c ≠ ',' := by
  refine ⟨?_, ?_, ?_, ?_, ?_, ?_, ?_, ?_, ?_, ?_, ?_⟩
  · cases hb : isBlank c
    · rfl
    · exfalso
      simp [isBlank] at hb
      rcases hb with ((rfl | rfl) | rfl) | rfl <;> exact absurd h (by decide)
  all_goals (rintro rfl; exact absurd h (by decide))

/-- The digit-value inversion for a single digit character. -/
theorem digitChar_spec (d : Nat) (h : d < 10) :
    (digitChar d).toNat = 48 + d ∧ isDig (digitChar d) = true := by
  interval_cases d <;> exact ⟨by decide, by decide⟩

/-- `digitsVal` peels the last digit. -/
theorem digitsVal_append_one (A : List Char) (c : Char) :
    digitsVal (A ++ [c]) = 10 * digitsVal A + (c.toNat - 48) := by
  simp [digitsVal, List.foldl_append]

/-- The decimal rendering carries exactly its number. -/
theorem digitsVal_natChars : ∀ (fuel n : Nat), n < fuel →
    digitsVal (natChars fuel n) = n := by
  intro fuel
  induction fuel with
  | zero => intro n h; omega
  | succ f ih =>
    intro n h
    by_cases h10 : n < 10
    · have hspec := (digitChar_spec n h10).1
      simp [natChars, h10, digitsVal, hspec]
    · have hdiv : n / 10 < n := Nat.div_lt_self (by omega) (by omega)
      have hmod := (digitChar_spec (n % 10) (by omega)).1
      simp only [natChars, h10, if_false]
      rw [digitsVal_append_one, ih (n / 10) (by omega), hmod]
      omega

/-- A number boundary stops the digit scanner at once. -/
theorem digitSpan_stop (cs : List Char) (h : numBoundary cs = true) :
    digitSpan cs = ([], cs) := by
  cases cs with
  | nil => rfl
  | cons c t =>
    simp [numBoundary] at h
    simp [digitSpan, h.1]

/-- The digit scanner consumes exactly a digit run. -/
theorem digitSpan_digits (ds : List Char) (hds : ∀ c ∈ ds, isDig c = true)
    (rest : List Char) (hrest : digitSpan rest = ([], rest)) :
    digitSpan (ds ++ rest) = (ds, rest) := by
  induction ds with
  | nil => simpa using hrest
  | cons c t ih =>
    have hc := hds c (by simp)
    have ht := ih (fun x hx => hds x (by simp [hx]))
    simp [digitSpan, hc, ht]

/-- The number parser inverts the decimal rendering of a natural number. -/
theorem parseNatNum_natChars (n : Nat) (rest : List Char) (hr : numBoundary rest = true) :
    parseNatNum (natChars (n + 1) n ++ rest) = some (n, rest) := by
  have hds := digitSpan_digits (natChars (n + 1) n)
    (fun c hc => by
      obtain ⟨d, hd, rfl⟩ := natChars_digits (n + 1) n (by omega) c hc
      exact (digitChar_spec d hd).2)
    rest (digitSpan_stop rest hr)
  have hne := natChars_ne_nil (n + 1) n (by omega)
  have hval := digitsVal_natChars (n + 1) n (by omega)
  cases rest with
  | nil =>
    simp only [List.append_nil] at hds
    simp [parseNatNum, hds, hne, hval]
  | cons c t =>
    simp [numBoundary] at hr
    obtain ⟨⟨⟨hr1, hr2⟩, hr3⟩, hr4⟩ := hr
    simp [parseNatNum, hds, hne, hval, hr1, hr2, hr3, hr4]

/-! ## Whitespace lemmas -/

/-- Indentation is all blanks. -/
theorem skipBlanks_indent (k : Nat) (X : List Char) :
    skipBlanks (indentChars k ++ X) = skipBlanks X := by
  induction k with
  | zero => rfl
  | succ d ih => simp [indentChars, skipBlanks, isBlank, ih]

/-- A newline followed by indentation is all blanks. -/
theorem skipBlanks_nl_indent (k : Nat) (X : List Char) :
    skipBlanks ('\n' :: (indentChars k ++ X)) = skipBlanks X := by
  simp [skipBlanks, isBlank, skipBlanks_indent]

/-- A non-blank head stops the skipper. -/
theorem skipBlanks_head (c : Char) (h : isBlank c = false) (X : List Char) :
    skipBlanks (c :: X) = c :: X := by
  simp [skipBlanks, h]

/-- The value parser ignores a leading newline-and-indent. -/
theorem parseVal_nl_indent (fuel k : Nat) (X : List Char) :
    parseVal fuel ('\n' :: (indentChars k ++ X)) = parseVal fuel X := by
  cases fuel with
  | zero => rfl
  | succ f => simp only [parseVal, skipBlanks_nl_indent]

/-- The value parser ignores one leading space. -/
theorem parseVal_space (fuel : Nat) (X : List Char) :
    parseVal fuel (' ' :: X) = parseVal fuel X := by
  cases fuel with
  | zero => rfl
  | succ f =>
    simp only [parseVal, show skipBlanks (' ' :: X) = skipBlanks X from by
      simp [skipBlanks, isBlank]]

/-- The member parser ignores a leading newline-and-indent. -/
theorem parseFields_nl_indent (fuel k : Nat) (X : List Char) :
    parseFields fuel ('\n' :: (indentChars k ++ X)) = parseFields fuel X := by
  cases fuel with
  | zero => rfl
  | succ f => simp only [parseFields, skipBlanks_nl_indent]

/-- The element parser ignores a leading newline-and-indent. -/
theorem parseElems_nl_indent (fuel k : Nat) (X : List Char) :
    parseElems fuel ('\n' :: (indentChars k ++ X)) = parseElems fuel X := by
  cases fuel with
  | zero => rfl
  | succ f => simp only [parseElems, parseVal_nl_indent]

/-! ## String-codec lemmas -/

/-- Parsing one escaped character undoes its escape. -/
theorem strBody_escChar (c : Char) (hc : tameChar c = true) (X : List Char) :
    strBody (escChar c ++ X) =
      (match strBody X with
       | some p => some (c :: p.1, p.2)
       | Option.none => Option.none) := by
  by_cases h1 : c = '"'
  · subst h1; rfl
  · by_cases h2 : c = '\\'
    · subst h2; rfl
    · by_cases h3 : c = '\n'
      · subst h3; rfl
      · by_cases h4 : c = '\t'
        · subst h4; rfl
        · by_cases h5 : c = '\r'
          · subst h5; rfl
          · by_cases h6 : c.toNat = 8
            · have : c = Char.ofNat 8 := by
                have := Char.ofNat_toNat c
                rw [h6] at this
                exact this.symm
              subst this
              rfl
            · by_cases h7 : c.toNat = 12
              · have : c = Char.ofNat 12 := by
                  have := Char.ofNat_toNat c
                  rw [h7] at this
                  exact this.symm
                subst this
                rfl
              · have h32 : ¬ c.toNat < 32 := by
                  simp [tameChar, h1, h2, h3, h4, h5, h6, h7] at hc
                  have hn : c ≠ '\n' := h3
                  omega
                simp [escChar, h1, h2, h3, h4, h5, h6, h7, strBody, h32]

/-- Parsing a rendered string body stops exactly at the closing quote. -/
theorem strBody_quote_aux : ∀ (cs : List Char), (∀ c ∈ cs, tameChar c = true) →
    ∀ (X : List Char),
    strBody ((cs.map escChar).flatten ++ '"' :: X) = some (cs, X) := by
  intro cs
  induction cs with
  | nil => intro _ X; rfl
  | cons c t ih =>
    intro hall X
    have hc := hall c (by simp)
    have ht := ih (fun x hx => hall x (by simp [hx]))
    simp only [List.map_cons, List.flatten_cons, List.append_assoc]
    rw [strBody_escChar c hc, ht X]

/-- The string codec round-trip. -/
theorem strBody_quote (s : String) (hs : tameStr s = true) (X : List Char) :
    strBody ((s.data.map escChar).flatten ++ '"' :: X) = some (s.data, X) :=
  strBody_quote_aux s.data (by simpa [tameStr, List.all_eq_true] using hs) X

/-- Rebuilding a string from its characters. -/
theorem strMk_data (s : String) : String.mk s.data = s := by
  cases s
  rfl

/-- Every rendered value starts with a non-blank character that closes
nothing and separates nothing. -/
theorem renderJ_head (v : Json) (d : Nat) :
    ∃ c t, renderJ v d = c :: t ∧ isBlank c = false ∧ c ≠ ']' ∧ c ≠ braceClose ∧
      c ≠ ',' := by
  cases v with
  | null => exact ⟨'n', _, rfl, by decide, by decide, by decide, by decide⟩
  | bool b =>
    cases b with
    | true => exact ⟨'t', _, rfl, by decide, by decide, by decide, by decide⟩
    | false => exact ⟨'f', _, rfl, by decide, by decide, by decide, by decide⟩
  | str s => exact ⟨'"', _, rfl, by decide, by decide, by decide, by decide⟩
  | arr es =>
    cases es with
    | nil => exact ⟨'[', _, rfl, by decide, by decide, by decide, by decide⟩
    | cons x xs => exact ⟨'[', _, rfl, by decide, by decide, by decide, by decide⟩
  | obj ms =>
    cases ms with
    | nil => exact ⟨braceOpen, _, rfl, by decide, by decide, by decide, by decide⟩
    | cons f fs =>
      exact ⟨braceOpen, _, rfl, by decide, by decide, by decide, by decide⟩
  | num i =>
    by_cases hi : i < 0
    · have hsh : renderJ (.num i) d = '-' :: natChars (i.natAbs + 1) i.natAbs := by
        simp [renderJ, intChars, hi]
      exact ⟨'-', _, hsh, by decide, by decide, by decide, by decide⟩
    · rcases hnc : natChars (i.natAbs + 1) i.natAbs with _ | ⟨c0, t0⟩
      · exact absurd hnc (natChars_ne_nil _ _ (by omega))
      · have hc0 : isDig c0 = true := by
          obtain ⟨dd, hdd, heq⟩ :=
            natChars_digits (i.natAbs + 1) i.natAbs (by omega) c0 (by rw [hnc]; simp)
          rw [heq]
          exact (digitChar_spec dd hdd).2
        obtain ⟨hb, _, hbc, _, hrb, _, _, _, _, _, hcm⟩ := isDig_not_special c0 hc0
        have hsh : renderJ (.num i) d = c0 :: t0 := by
          simp [renderJ, intChars, hi, hnc]
        exact ⟨c0, t0, hsh, hb, hrb, hbc, hcm⟩

mutual

/-- The value codec round-trip: parsing a rendered value recovers it, with
the remainder untouched, whenever the remainder cannot extend a number. -/
theorem rtVal : ∀ (v : Json) (d fuel : Nat) (rest : List Char),
    tameJ v = true → (renderJ v d).length < fuel → numBoundary rest = true →
    parseVal fuel (renderJ v d ++ rest) = some (v, rest)
  | .null, d, fuel, rest, _, hf, _ => by
    cases fuel with
    | zero => simp [renderJ] at hf
    | succ f => simp [renderJ, parseVal, skipBlanks, isBlank, braceOpen, braceClose]
  | .bool true, d, fuel, rest, _, hf, _ => by
    cases fuel with
    | zero => simp [renderJ] at hf
    | succ f => simp [renderJ, parseVal, skipBlanks, isBlank, braceOpen, braceClose]
  | .bool false, d, fuel, rest, _, hf, _ => by
    cases fuel with
    | zero => simp [renderJ] at hf
    | succ f => simp [renderJ, parseVal, skipBlanks, isBlank, braceOpen, braceClose]
  | .num i, d, fuel, rest, _, hf, hr => by
    cases fuel with
    | zero => exact absurd hf (Nat.not_lt_zero _)
    | succ f =>
      by_cases hi : i < 0
      · have harg : renderJ (.num i) d ++ rest
            = '-' :: (natChars (i.natAbs + 1) i.natAbs ++ rest) := by
          simp [renderJ, intChars, hi]
        rw [harg]
        have hnum := parseNatNum_natChars i.natAbs rest hr
        simp only [parseVal]
        rw [skipBlanks_head '-' (by decide)]
        simp [braceOpen, hnum]
        rw [abs_of_neg hi]
        omega
      · rcases hnc : natChars (i.natAbs + 1) i.natAbs with _ | ⟨c0, t0⟩
        · exact absurd hnc (natChars_ne_nil _ _ (by omega))
        · have hc0 : isDig c0 = true := by
            obtain ⟨dd, hdd, heq⟩ :=
              natChars_digits (i.natAbs + 1) i.natAbs (by omega) c0 (by rw [hnc]; simp)
            rw [heq]
            exact (digitChar_spec dd hdd).2
          obtain ⟨hb, hbo, hbc, hlb, hrb, hq, ht', hf', hn', hm', hcm⟩ :=
            isDig_not_special c0 hc0
          have harg : renderJ (.num i) d ++ rest = c0 :: (t0 ++ rest) := by
            simp [renderJ, intChars, hi, hnc]
          have hnum := parseNatNum_natChars i.natAbs rest hr
          rw [hnc, List.cons_append] at hnum
          rw [harg]
          simp only [parseVal]
          rw [skipBlanks_head c0 hb]
          simp [hbo, hlb, hq, ht', hf', hn', hm', hc0]
          rw [hnum]
          show some (Json.num (i.natAbs : Int), rest) = some (Json.num i, rest)
          rw [show ((i.natAbs : Int)) = i by omega]
  | .str s, d, fuel, rest, ht, hf, _ => by
    cases fuel with
    | zero => exact absurd hf (Nat.not_lt_zero _)
    | succ f =>
      have harg : renderJ (.str s) d ++ rest
          = '"' :: ((s.data.map escChar).flatten ++ '"' :: rest) := by
        simp [renderJ, quoteStr]
      rw [harg]
      have hq := strBody_quote s (by simpa [tameJ] using ht) rest
      simp [parseVal, skipBlanks, isBlank, braceOpen, hq, strMk_data]
  | .arr [], d, fuel, rest, _, hf, _ => by
    cases fuel with
    | zero => simp [renderJ] at hf
    | succ f => simp [renderJ, parseVal, skipBlanks, isBlank, braceOpen, braceClose]
  | .arr (x :: xs), d, fuel, rest, ht, hf, _ => by
    cases fuel with
    | zero => exact absurd hf (Nat.not_lt_zero _)
    | succ f =>
      obtain ⟨htx, htxs⟩ : tameJ x = true ∧ tameArr xs = true := by
        simpa [tameJ, tameArr, Bool.and_eq_true] using ht
      obtain ⟨c0, t0, hx, hxb, hxrb, hxbc, hxcm⟩ := renderJ_head x (d + 1)
      have harg : renderJ (.arr (x :: xs)) d ++ rest
          = '[' :: ('\n' :: (indentChars (d + 1) ++
              (renderJ x (d + 1) ++ (renderElemsTail xs (d + 1) ++
                '\n' :: (indentChars d ++ (']' :: rest)))))) := by
        simp [renderJ]
      have hfe : (renderJ x (d + 1)).length + (renderElemsTail xs (d + 1)).length + 1 < f := by
        simp [renderJ, List.length_append] at hf
        omega
      have key := rtElems x xs (d + 1) d f rest htx htxs hfe
      rw [hx, List.cons_append] at key
      have hskip : skipBlanks (renderJ x (d + 1) ++ (renderElemsTail xs (d + 1) ++
          '\n' :: (indentChars d ++ (']' :: rest))))
          = c0 :: (t0 ++ (renderElemsTail xs (d + 1) ++
              '\n' :: (indentChars d ++ (']' :: rest)))) := by
        rw [hx, List.cons_append]
        exact skipBlanks_head c0 hxb _
      rw [harg]
      simp [parseVal, skipBlanks_head '[' (by decide), skipBlanks_nl_indent, hskip,
        hxrb, braceOpen, key]
  | .obj [], d, fuel, rest, _, hf, _ => by
    cases fuel with
    | zero => simp [renderJ] at hf
    | succ f => simp [renderJ, parseVal, skipBlanks, isBlank, braceOpen, braceClose]
  | .obj ((k0, v0) :: fs), d, fuel, rest, ht, hf, _ => by
    cases fuel with
    | zero => exact absurd hf (Nat.not_lt_zero _)
    | succ f =>
      obtain ⟨htk, htv, htfs⟩ : tameStr k0 = true ∧ tameJ v0 = true ∧ tameObj fs = true := by
        simpa [tameJ, tameObj, Bool.and_eq_true, and_assoc] using ht
      have harg : renderJ (.obj ((k0, v0) :: fs)) d ++ rest
          = braceOpen :: ('\n' :: (indentChars (d + 1) ++
              (renderField (k0, v0) (d + 1) ++ (renderFieldsTail fs (d + 1) ++
                '\n' :: (indentChars d ++ (braceClose :: rest)))))) := by
        simp [renderJ]
      have hff : (renderField (k0, v0) (d + 1)).length
          + (renderFieldsTail fs (d + 1)).length + 1 < f := by
        simp [renderJ, List.length_append] at hf
        omega
      have key := rtFields (k0, v0) fs (d + 1) d f rest htk htv htfs hff
      have hfshape : renderField (k0, v0) (d + 1)
          = '"' :: ((k0.data.map escChar).flatten
              ++ ('"' :: (':' :: (' ' :: renderJ v0 (d + 1))))) := by
        simp [renderField, quoteStr]
      rw [hfshape] at key
      simp only [List.cons_append, List.append_assoc] at key
      rw [harg]
      simp [parseVal, skipBlanks_head braceOpen (by decide), skipBlanks_nl_indent, hfshape,
        List.cons_append, List.append_assoc, skipBlanks_head '"' (by decide),
        show ¬ (('"' : Char) = braceClose) from by decide, key]
termination_by v _ _ _ _ _ _ => sizeOf v

theorem rtElems : ∀ (x : Json) (xs : List Json) (d dc fuel : Nat) (rest : List Char),
    tameJ x = true → tameArr xs = true →
    (renderJ x d).length + (renderElemsTail xs d).length + 1 < fuel →
    parseElems fuel (renderJ x d ++ (renderElemsTail xs d ++
        '\n' :: (indentChars dc ++ (']' :: rest))))
      = some (x :: xs, rest)
  | x, [], d, dc, fuel, rest, htx, _, hfuel => by
    cases fuel with
    | zero => omega
    | succ f =>
      have hv := rtVal x d f ('\n' :: (indentChars dc ++ (']' :: rest))) htx
        (by simp [renderElemsTail] at hfuel; omega) (by rfl)
      simp only [renderElemsTail, List.nil_append]
      simp only [parseElems]
      rw [hv]
      simp [skipBlanks_nl_indent, skipBlanks_head ']' (by decide)]
  | x, x' :: xs', d, dc, fuel, rest, htx, htxs, hfuel => by
    cases fuel with
    | zero => omega
    | succ f =>
      obtain ⟨htx', htxs'⟩ : tameJ x' = true ∧ tameArr xs' = true := by
        simpa [tameArr, Bool.and_eq_true] using htxs
      have hv := rtVal x d f (renderElemsTail (x' :: xs') d ++
          '\n' :: (indentChars dc ++ (']' :: rest))) htx
        (by omega) (by simp [renderElemsTail, numBoundary, isDig])
      have hfuel' : (renderJ x' d).length + (renderElemsTail xs' d).length + 1 < f := by
        simp [renderElemsTail, List.length_append] at hfuel
        omega
      have key := rtElems x' xs' d dc f rest htx' htxs' hfuel'
      simp only [parseElems]
      rw [hv]
      simp only [renderElemsTail, List.cons_append, List.append_assoc]
      rw [skipBlanks_head ',' (by decide)]
      simp [parseElems_nl_indent, key]
termination_by x xs _ _ _ _ _ _ _ => sizeOf x + sizeOf xs

theorem rtFields : ∀ (kv : String × Json) (fs : List (String × Json)) (d dc : Nat)
    (fuel : Nat) (rest : List Char),
    tameStr kv.1 = true → tameJ kv.2 = true → tameObj fs = true →
    (renderField kv d).length + (renderFieldsTail fs d).length + 1 < fuel →
    parseFields fuel (renderField kv d ++ (renderFieldsTail fs d ++
        '\n' :: (indentChars dc ++ (braceClose :: rest))))
      = some (kv :: fs, rest)
  | (k0, v0), [], d, dc, fuel, rest, htk, htv, _, hfuel => by
    cases fuel with
    | zero => omega
    | succ f =>
      have hshape : renderField (k0, v0) d ++ (renderFieldsTail [] d ++
          ('\n' :: (indentChars dc ++ (braceClose :: rest))))
          = '"' :: ((k0.data.map escChar).flatten ++ ('"' :: (':' :: (' ' ::
              (renderJ v0 d ++ '\n' :: (indentChars dc ++ (braceClose :: rest))))))) := by
        simp [renderField, renderFieldsTail, quoteStr]
      have hq := strBody_quote k0 htk (':' :: (' ' ::
        (renderJ v0 d ++ '\n' :: (indentChars dc ++ (braceClose :: rest)))))
      have hv := rtVal v0 d f ('\n' :: (indentChars dc ++ (braceClose :: rest))) htv
        (by simp [renderField, List.length_append] at hfuel; omega) (by rfl)
      rw [hshape]
      simp only [parseFields]
      rw [skipBlanks_head '"' (by decide)]
      simp [hq, skipBlanks_head ':' (by decide), parseVal_space, hv,
        skipBlanks_nl_indent, skipBlanks_head braceClose (by decide),
        show ¬ (braceClose = ',') from by decide, strMk_data]
  | (k0, v0), (k1, v1) :: fs', d, dc, fuel, rest, htk, htv, htfs, hfuel => by
    cases fuel with
    | zero => omega
    | succ f =>
      obtain ⟨htk1, htv1, htfs'⟩ : tameStr k1 = true ∧ tameJ v1 = true ∧
          tameObj fs' = true := by
        simpa [tameObj, Bool.and_eq_true, and_assoc] using htfs
      have hshape : renderField (k0, v0) d ++ (renderFieldsTail ((k1, v1) :: fs') d ++
          ('\n' :: (indentChars dc ++ (braceClose :: rest))))
          = '"' :: ((k0.data.map escChar).flatten ++ ('"' :: (':' :: (' ' ::
              (renderJ v0 d ++ (renderFieldsTail ((k1, v1) :: fs') d ++
                '\n' :: (indentChars dc ++ (braceClose :: rest)))))))) := by
        simp [renderField, quoteStr]
      have hq := strBody_quote k0 htk (':' :: (' ' ::
        (renderJ v0 d ++ (renderFieldsTail ((k1, v1) :: fs') d ++
          '\n' :: (indentChars dc ++ (braceClose :: rest))))))
      have hflen := hfuel
      simp [renderField, quoteStr, List.length_append] at hflen
      have hv := rtVal v0 d f (renderFieldsTail ((k1, v1) :: fs') d ++
          '\n' :: (indentChars dc ++ (braceClose :: rest))) htv
        (by omega) (by simp [renderFieldsTail, numBoundary, isDig])
      have hfuel' : (renderField (k1, v1) d).length
          + (renderFieldsTail fs' d).length + 1 < f := by
        simp [renderFieldsTail, List.length_append] at hfuel
        omega
      have key := rtFields (k1, v1) fs' d dc f rest htk1 htv1 htfs' hfuel'
      rw [hshape]
      simp only [parseFields]
      rw [skipBlanks_head '"' (by decide)]
      simp only [hq, skipBlanks_head ':' (by decide), parseVal_space, hv]
      simp only [renderFieldsTail, List.cons_append, List.append_assoc]
      rw [skipBlanks_head ',' (by decide)]
      simp [parseFields_nl_indent, key, strMk_data]
termination_by kv fs _ _ _ _ _ _ _ _ => sizeOf kv + sizeOf fs

end

/-- Witness for C10: Node 30 is rejected and the run exits 1 immediately. -/
theorem claim_C10_version_gate_witness :
    (envV30.nodeVersion = "v" ++ decRepr 30 ++ "." ++ "1.0" ∧
     ¬ (18 ≤ 30 ∧ 30 ≤ 29)) ∧
    (¬ checkNodeVersion envV30.nodeVersion = true ∧
     (run envV30 demoAnswers).exitCode = 1 ∧
     (run envV30 demoAnswers).cmdsRun = [] ∧
     (run envV30 demoAnswers).filesWritten = []) := by
  have h := claim_C10_version_gate 30 "1.0" envV30 demoAnswers (by decide)
  refine ⟨⟨by decide, by decide⟩, ?_, ?_, ?_, ?_⟩
  · intro hb
    exact absurd (h.1.mp hb) (by decide)
  · exact (h.2 (by decide)).1
  · exact (h.2 (by decide)).2.1
  · exact (h.2 (by decide)).2.2.1

/-! ## C8 — the type-config JSON-patch round-trip

First: every value the parser produces is tame, tameness survives the
patch, and `parseJson (stringifyPretty v) = some v` on tame values. -/

/-- Every character an unescape produces is tame. -/
theorem unescapeChar_tame (e c : Char) (h : unescapeChar e = some c) :
    tameChar c = true := by
  simp only [unescapeChar] at h
  split_ifs at h <;> simp only [Option.some.injEq] at h <;> subst h <;> decide

/-- The string-body parser only produces tame characters. -/
theorem strBody_tame : ∀ (cs out rem : List Char),
    strBody cs = some (out, rem) → out.all tameChar = true
  | [], out, rem, h => by simp [strBody] at h
  | c :: more, out, rem, h => by
    by_cases h1 : c = '"'
    · subst h1
      simp only [strBody, Option.some.injEq, Prod.mk.injEq] at h
      rw [← h.1]
      rfl
    · by_cases h2 : c = '\\'
      · subst h2
        cases more with
        | nil => simp [strBody] at h
        | cons e more2 =>
          simp only [strBody] at h
          rcases hu : unescapeChar e with _ | c2
          · simp [hu] at h
          · simp only [hu] at h
            rcases hs : strBody more2 with _ | p
            · simp [hs] at h
            · simp only [hs] at h
              simp only [Option.some.injEq, Prod.mk.injEq] at h
              rw [← h.1]
              have ht := strBody_tame more2 p.1 p.2 hs
              simp [List.all_cons, ht, unescapeChar_tame e c2 hu]
      · simp only [strBody, h1, h2] at h
        by_cases h32 : c.toNat < 32
        · simp [h32] at h
        · rw [if_neg h32] at h
          rcases hs : strBody more with _ | p
          · simp [hs] at h
          · simp only [hs] at h
            simp only [Option.some.injEq, Prod.mk.injEq] at h
            rw [← h.1]
            have ht := strBody_tame more p.1 p.2 hs
            have hc32 : 32 ≤ c.toNat := Nat.le_of_not_lt h32
            have hc : tameChar c = true := by simp [tameChar, hc32]
            simp [List.all_cons, ht, hc]

mutual

/-- The value parser only produces tame values. -/
theorem parseVal_tame : ∀ (fuel : Nat) (cs : List Char) (v : Json) (rem : List Char),
    parseVal fuel cs = some (v, rem) → tameJ v = true
  | 0, _, _, _, h => by simp [parseVal] at h
  | fuel + 1, cs, v, rem, h => by
    simp only [parseVal] at h
    split at h
    · exact absurd h (by simp)
    · rename_i c more heq
      by_cases h1 : c = braceOpen
      · rw [if_pos h1] at h
        split at h
        · exact absurd h (by simp)
        · rename_i c2 more2 heq2
          by_cases h2 : c2 = braceClose
          · rw [if_pos h2] at h
            simp only [Option.some.injEq, Prod.mk.injEq] at h
            rw [← h.1]
            rfl
          · rw [if_neg h2] at h
            rcases hp : parseFields fuel (c2 :: more2) with _ | p
            · simp [hp] at h
            · simp only [hp, Option.some.injEq, Prod.mk.injEq] at h
              rw [← h.1]
              exact parseFields_tame _ _ _ _ hp
      · rw [if_neg h1] at h
        by_cases h2 : c = '['
        · rw [if_pos h2] at h
          split at h
          · exact absurd h (by simp)
          · rename_i c2 more2 heq2
            by_cases h3 : c2 = ']'
            · rw [if_pos h3] at h
              simp only [Option.some.injEq, Prod.mk.injEq] at h
              rw [← h.1]
              rfl
            · rw [if_neg h3] at h
              rcases hp : parseElems fuel (c2 :: more2) with _ | p
              · simp [hp] at h
              · simp only [hp, Option.some.injEq, Prod.mk.injEq] at h
                rw [← h.1]
                exact parseElems_tame _ _ _ _ hp
        · rw [if_neg h2] at h
          by_cases h3 : c = '"'
          · rw [if_pos h3] at h
            rcases hp : strBody more with _ | p
            · simp [hp] at h
            · simp only [hp, Option.some.injEq, Prod.mk.injEq] at h
              rw [← h.1]
              exact strBody_tame _ _ _ hp
          · rw [if_neg h3] at h
            by_cases h4 : c = 't'
            · rw [if_pos h4] at h
              split at h
              · simp only [Option.some.injEq, Prod.mk.injEq] at h
                rw [← h.1]
                rfl
              · exact absurd h (by simp)
            · rw [if_neg h4] at h
              by_cases h5 : c = 'f'
              · rw [if_pos h5] at h
                split at h
                · simp only [Option.some.injEq, Prod.mk.injEq] at h
                  rw [← h.1]
                  rfl
                · exact absurd h (by simp)
              · rw [if_neg h5] at h
                by_cases h6 : c = 'n'
                · rw [if_pos h6] at h
                  split at h
                  · simp only [Option.some.injEq, Prod.mk.injEq] at h
                    rw [← h.1]
                    rfl
                  · exact absurd h (by simp)
                · rw [if_neg h6] at h
                  by_cases h7 : c = '-'
                  · rw [if_pos h7] at h
                    rcases hp : parseNatNum more with _ | p
                    · simp [hp] at h
                    · simp only [hp, Option.some.injEq, Prod.mk.injEq] at h
                      rw [← h.1]
                      rfl
                  · rw [if_neg h7] at h
                    by_cases h8 : isDig c = true
                    · rw [if_pos h8] at h
                      rcases hp : parseNatNum (c :: more) with _ | p
                      · simp [hp] at h
                      · simp only [hp, Option.some.injEq, Prod.mk.injEq] at h
                        rw [← h.1]
                        rfl
                    · rw [if_neg h8] at h
                      exact absurd h (by simp)

/-- The member parser only produces tame member lists. -/
theorem parseFields_tame : ∀ (fuel : Nat) (cs : List Char)
    (fs : List (String × Json)) (rem : List Char),
    parseFields fuel cs = some (fs, rem) → tameObj fs = true
  | 0, _, _, _, h => by simp [parseFields] at h
  | fuel + 1, cs, fs, rem, h => by
    simp only [parseFields] at h
    split at h
    · rename_i more heq
      rcases hsb : strBody more with _ | kp
      · simp [hsb] at h
      · simp only [hsb] at h
        split at h
        · rename_i afterColon heq2
          rcases hpv : parseVal fuel afterColon with _ | vp
          · simp [hpv] at h
          · simp only [hpv] at h
            split at h
            · rename_i c afterSep heq3
              by_cases hc : c = ','
              · rw [if_pos hc] at h
                rcases hpf : parseFields fuel afterSep with _ | fsp
                · simp [hpf] at h
                · simp only [hpf, Option.some.injEq, Prod.mk.injEq] at h
                  rw [← h.1]
                  have h1 : tameStr (String.mk kp.1) = true :=
                    strBody_tame more kp.1 kp.2 hsb
                  have h2 := parseVal_tame fuel afterColon vp.1 vp.2 hpv
                  have h3 := parseFields_tame fuel afterSep fsp.1 fsp.2 hpf
                  simp [tameObj, h1, h2, h3]
              · rw [if_neg hc] at h
                by_cases hbc : c = braceClose
                · rw [if_pos hbc] at h
                  simp only [Option.some.injEq, Prod.mk.injEq] at h
                  rw [← h.1]
                  have h1 : tameStr (String.mk kp.1) = true :=
                    strBody_tame more kp.1 kp.2 hsb
                  have h2 := parseVal_tame fuel afterColon vp.1 vp.2 hpv
                  simp [tameObj, h1, h2]
                · rw [if_neg hbc] at h
                  exact absurd h (by simp)
            · exact absurd h (by simp)
        · exact absurd h (by simp)
    · exact absurd h (by simp)

/-- The element parser only produces tame element lists. -/
theorem parseElems_tame : ∀ (fuel : Nat) (cs : List Char)
    (xs : List Json) (rem : List Char),
    parseElems fuel cs = some (xs, rem) → tameArr xs = true
  | 0, _, _, _, h => by simp [parseElems] at h
  | fuel + 1, cs, xs, rem, h => by
    simp only [parseElems] at h
    rcases hpv : parseVal fuel cs with _ | vp
    · simp [hpv] at h
    · simp only [hpv] at h
      split at h
      · rename_i afterSep heq
        rcases hpe : parseElems fuel afterSep with _ | esp
        · simp [hpe] at h
        · simp only [hpe, Option.some.injEq, Prod.mk.injEq] at h
          rw [← h.1]
          have h1 := parseVal_tame fuel cs vp.1 vp.2 hpv
          have h2 := parseElems_tame fuel afterSep esp.1 esp.2 hpe
          simp [tameArr, h1, h2]
      · rename_i afterSep heq
        simp only [Option.some.injEq, Prod.mk.injEq] at h
        rw [← h.1]
        have h1 := parseVal_tame fuel cs vp.1 vp.2 hpv
        simp [tameArr, h1]
      · exact absurd h (by simp)

end

/-- A full parse only produces tame values. -/
theorem parseJson_tame (s : String) (v : Json) (h : parseJson s = some v) :
    tameJ v = true := by
  simp only [parseJson] at h
  split at h
  · rename_i p hp
    by_cases hb : skipBlanks p.2 = []
    · rw [if_pos hb] at h
      obtain rfl : p.1 = v := Option.some.inj h
      exact parseVal_tame _ _ _ _ hp
    · rw [if_neg hb] at h
      exact absurd h (by simp)
  · exact absurd h (by simp)

/-- Unfolding a full parse of a rebuilt string. -/
theorem parseJson_mk (l : List Char) : parseJson (String.mk l) =
    (match parseVal (l.length + 1) l with
     | some p => if skipBlanks p.2 = [] then some p.1 else Option.none
     | Option.none => Option.none) := rfl

/-- Re-serializing a tame value parses back to it: the codec round-trip. -/
theorem parseJson_stringify (v : Json) (hv : tameJ v = true) :
    parseJson (stringifyPretty v) = some v := by
  have h := rtVal v 0 ((renderJ v 0).length + 1) [] hv (by omega) (by rfl)
  rw [List.append_nil] at h
  simp only [stringifyPretty]
  rw [parseJson_mk]
  simp only [h]
  rfl

/-- Tameness survives a field set. -/
theorem setField_tame : ∀ (fs : List (String × Json)) (k : String) (v : Json),
    tameObj fs = true → tameStr k = true → tameJ v = true →
    tameObj (setField fs k v) = true
  | [], k, v, _, hk, hv => by simp [setField, tameObj, hk, hv]
  | (k2, v2) :: t, k, v, hfs, hk, hv => by
    simp only [tameObj, Bool.and_eq_true] at hfs
    obtain ⟨⟨hk2, hv2⟩, ht⟩ := hfs
    by_cases hkk : k2 = k
    · simp only [setField, if_pos hkk]
      simp [tameObj, hk, hv, ht]
    · simp only [setField, if_neg hkk]
      simp [tameObj, hk2, hv2, setField_tame t k v ht hk hv]

/-- Tameness survives a property assignment. -/
theorem setKey_tame (j : Json) (k : String) (v : Json)
    (hj : tameJ j = true) (hk : tameStr k = true) (hv : tameJ v = true) :
    tameJ (j.setKey k v) = true := by
  cases j with
  | null => exact hj
  | bool b => exact hj
  | num n => exact hj
  | str s => exact hj
  | arr xs => exact hj
  | obj fs => exact setField_tame fs k v hj hk hv

/-- A field of a tame object is tame. -/
theorem lookupField_tame : ∀ (fs : List (String × Json)) (k : String) (v : Json),
    tameObj fs = true → lookupField fs k = some v → tameJ v = true
  | [], k, v, _, h => by simp [lookupField] at h
  | (k2, v2) :: t, k, v, hfs, h => by
    simp only [tameObj, Bool.and_eq_true] at hfs
    obtain ⟨⟨hk2, hv2⟩, ht⟩ := hfs
    simp only [lookupField] at h
    by_cases hkk : k2 = k
    · rw [if_pos hkk] at h
      obtain rfl : v2 = v := Option.some.inj h
      exact hv2
    · rw [if_neg hkk] at h
      exact lookupField_tame t k v ht h

/-- The defaulted field of a tame object is tame. -/
theorem orEmptyObj_tame (fs : List (String × Json)) (k : String)
    (hfs : tameObj fs = true) : tameJ (orEmptyObj (lookupField fs k)) = true := by
  generalize hl : lookupField fs k = o
  rcases o with _ | v
  · rfl
  · have hv := lookupField_tame fs k v hfs hl
    simp only [orEmptyObj]
    cases htr : v.truthy with
    | true => simpa [htr] using hv
    | false => simp [htr, tameJ, tameObj]

/-- Tameness survives the whole `tsconfig.app.json` patch. -/
theorem patchTsconfigApp_tame (j : Json) (hj : tameJ j = true) :
    tameJ (patchTsconfigApp j) = true := by
  cases j with
  | null => exact hj
  | bool b => exact hj
  | num n => exact hj
  | str s => exact hj
  | arr xs => exact hj
  | obj fs =>
    have hco := orEmptyObj_tame fs "compilerOptions" hj
    have h1 := setKey_tame _ "baseUrl" (Json.str ".") hco (by decide) (by decide)
    have h2 := setKey_tame _ "paths" tsAppPathsValue h1 (by decide) (by decide)
    exact setField_tame fs "compilerOptions" _ hj (by decide) h2

set_option maxRecDepth 8000 in
/-- Counterexample to C8 as stated: a type-config text whose `homepage`
string value contains `//`. The purely textual line-comment strip truncates
the value mid-string, the stripped text is invalid JSON (comment stripping
leaked into a value), and parsing fails, so no re-serialized output with the
claimed key set exists at all. The variant whose comments sit outside every
string value parses fine after stripping. -/
theorem claim_C8_cex :
    parseJson (stripJsonComments cexTsconfigApp) = Option.none ∧
    parseJson (stripJsonComments cexTsconfigAppClean) = some (Json.obj cleanFs) :=
  ⟨rfl, rfl⟩

/-- C8 (corrected): on every commented type-config text whose stripped form
parses to an object and whose `compilerOptions` member defaults (through
the `x || \x7b\x7d` idiom) to an object, the patch keeps every other
top-level binding unchanged, has exactly the pre-existing top-level keys
plus `compilerOptions`, inside `compilerOptions` sets exactly the two owned
keys (`baseUrl` to `"."` and `paths` to the alias map) keeping all other
members, and re-serializing yields valid JSON that parses back to exactly
the patched value. -/
theorem claim_C8_patch_roundtrip (t : String) (fs cos : List (String × Json))
    (h1 : parseJson (stripJsonComments t) = some (Json.obj fs))
    (h2 : orEmptyObj (lookupField fs "compilerOptions") = Json.obj cos) :
    (∀ k, k ≠ "compilerOptions" →
      lookupField (patchTsconfigApp (Json.obj fs)).fields k = lookupField fs k) ∧
    (∀ k, k ∈ (patchTsconfigApp (Json.obj fs)).fields.map Prod.fst ↔
      (k ∈ fs.map Prod.fst ∨ k = "compilerOptions")) ∧
    (∃ cos2,
      lookupField (patchTsconfigApp (Json.obj fs)).fields "compilerOptions"
        = some (Json.obj cos2) ∧
      lookupField cos2 "baseUrl" = some (Json.str ".") ∧
      lookupField cos2 "paths" = some tsAppPathsValue ∧
      (∀ k, k ≠ "baseUrl" → k ≠ "paths" →
        lookupField cos2 k = lookupField cos k) ∧
      (∀ k, k ∈ cos2.map Prod.fst ↔
        (k ∈ cos.map Prod.fst ∨ k = "baseUrl" ∨ k = "paths"))) ∧
    parseJson (stringifyPretty (patchTsconfigApp (Json.obj fs)))
      = some (patchTsconfigApp (Json.obj fs)) := by
  have hP : patchTsconfigApp (Json.obj fs) = Json.obj (setField fs "compilerOptions"
      (Json.obj (setField (setField cos "baseUrl" (Json.str ".")) "paths"
        tsAppPathsValue))) := by
    simp only [patchTsconfigApp, h2, Json.setKey]
  refine ⟨?_, ?_, ?_, ?_⟩
  · intro k hk
    rw [hP]
    exact lookupField_setField_ne fs "compilerOptions" k _ hk
  · intro k
    rw [hP]
    exact mem_map_fst_setField fs "compilerOptions" k _
  · refine ⟨setField (setField cos "baseUrl" (Json.str ".")) "paths" tsAppPathsValue,
      ?_, ?_, ?_, ?_, ?_⟩
    · rw [hP]
      exact lookupField_setField_self fs "compilerOptions" _
    · rw [lookupField_setField_ne _ "paths" "baseUrl" _ (by decide)]
      exact lookupField_setField_self cos "baseUrl" _
    · exact lookupField_setField_self _ "paths" _
    · intro k hkb hkp
      rw [lookupField_setField_ne _ "paths" k _ hkp,
        lookupField_setField_ne _ "baseUrl" k _ hkb]
    · intro k
      rw [mem_map_fst_setField, mem_map_fst_setField]
      tauto
  · have hfs : tameJ (Json.obj fs) = true := parseJson_tame _ _ h1
    exact parseJson_stringify _ (patchTsconfigApp_tame _ hfs)

set_option maxRecDepth 8000 in
/-- Witness for C8: on the clean commented config, the stripped text parses,
its `compilerOptions` member is an object, the patch keeps the unrelated
`strict` field, and the re-serialized file parses back to the patched value. -/
theorem claim_C8_patch_roundtrip_witness :
    (parseJson (stripJsonComments cexTsconfigAppClean) = some (Json.obj cleanFs) ∧
     orEmptyObj (lookupField cleanFs "compilerOptions") = Json.obj cleanCos) ∧
    lookupField (patchTsconfigApp (Json.obj cleanFs)).fields "strict"
      = lookupField cleanFs "strict" ∧
    parseJson (stringifyPretty (patchTsconfigApp (Json.obj cleanFs)))
      = some (patchTsconfigApp (Json.obj cleanFs)) := by
  have h := claim_C8_patch_roundtrip cexTsconfigAppClean cleanFs cleanCos rfl rfl
  exact ⟨⟨rfl, rfl⟩, h.1 "strict" (by decide), h.2.2.2⟩

end Sparkvite
